import Mathlib

/-!
# rhelper, package `cmd`: the `filter` command (`src/cmd/slsfilter.go`)

A shallow embedding of the table extractor, the record model and the filter
engine of `slsfilter.go`, followed by theorems about them.

Conventions of the embedding.

* A Go `string` is a Lean `String`: a sequence of Unicode code points (the
  program only ever handles the text of HTML cells and command line arguments,
  valid UTF-8).
* A Go function returning `(T, error)` whose value is dead on the error path is
  an `Except error T`.  `strconv.ParseFloat` returns the pair, because
  `ApplyValue` stores the value before it looks at the error.
* A method with a pointer receiver that mutates the record returns the new
  record together with its Go result.
* A closure is the data it captures: a constructor of `filter` holding the
  captured variables, and `filter.call` is the body.
* The functions of the Go standard library (`strings`, `unicode`, `regexp`,
  `strconv`, `fmt`) are modelled from their documentation in the first part.
-/

namespace cmd

/-! ## Go standard library -/

/-- Go `error` values of the package: the two sentinel errors of `strconv`
and the `fmt.Errorf("no such ... column")` of the accessors. -/
inductive error
  | ErrSyntax
  | ErrRange
  | noSuchColumn
  deriving DecidableEq, Repr

deriving instance DecidableEq for Except

/-- `unicode.IsSpace`: the code points with the Unicode White_Space property. -/
def isSpace (c : Char) : Bool :=
  let n := c.toNat
  (9 ≤ n && n ≤ 13) || n == 0x20 || n == 0x85 || n == 0xA0 || n == 0x1680 ||
  (0x2000 ≤ n && n ≤ 0x200A) || n == 0x2028 || n == 0x2029 || n == 0x202F ||
  n == 0x205F || n == 0x3000

/-- `strings.TrimSpace`: drop the leading and the trailing white space. -/
def TrimSpace (s : String) : String :=
  ⟨(s.data.dropWhile isSpace).rdropWhile isSpace⟩

/-- `unicode.ToLower` as far as the program can observe it.  The upper-case
ASCII letters go to their lower-case ones; U+0130 and U+212A are the two
code points outside ASCII whose lower-case form is an ASCII letter (`i`, `k`).
Every other code point outside ASCII has a lower-case form outside ASCII; the
program only compares lower-cased text with ASCII column keys, so such a code
point is left as it is. -/
def toLowerRune (c : Char) : Char :=
  if 65 ≤ c.toNat ∧ c.toNat ≤ 90 then Char.ofNat (c.toNat + 32)
  else if c.toNat = 0x130 then 'i'
  else if c.toNat = 0x212A then 'k'
  else c

/-- `strings.ToLower`. -/
def ToLower (s : String) : String := ⟨s.data.map toLowerRune⟩

/-- The class `\d` of Go regular expressions: the ASCII digits. -/
def isDigit (c : Char) : Bool := 48 ≤ c.toNat && c.toNat ≤ 57

/-- The class `\s` of Go regular expressions: tab, line feed, form feed,
carriage return and space. -/
def isReSpace (c : Char) : Bool :=
  c.toNat == 9 || c.toNat == 10 || c.toNat == 12 || c.toNat == 13 || c.toNat == 32

/-- A match of `(\d+)\s` starting at the head of the text: the longest run of
digits, which must be non-empty, and the one `\s` character after it. -/
def reMatchHere (s : List Char) : Option (List Char) :=
  match s.takeWhile isDigit, s.dropWhile isDigit with
  | _ :: _, c :: _ => if isReSpace c then some (s.takeWhile isDigit ++ [c]) else none
  | _, _ => none

/-- The leftmost match of `(?m)^(\d+)\s`, or the empty text.  The flag is
`true` when the head of the text is at the beginning of a line: with `(?m)`
the anchor `^` matches at the beginning of the text and after each line feed. -/
def reFindFrom : Bool → List Char → List Char
  | _, [] => []
  | true, c :: cs =>
    match reMatchHere (c :: cs) with
    | some m => m
    | none => reFindFrom (c.toNat == 10) cs
  | false, c :: cs => reFindFrom (c.toNat == 10) cs

/-- The package variable `re = regexp.MustCompile("(?m)^(?P<barno>\d+)\s")`
with its method `FindString`. -/
def re.FindString (s : String) : String := ⟨reFindFrom true s.data⟩

/-- Value of an ASCII digit. -/
def digitVal (c : Char) : Nat := c.toNat - 48

/-- The number written by a text of decimal digits. -/
def digitsVal (s : List Char) : Nat := s.foldl (fun a c => 10 * a + digitVal c) 0

/-- `strconv.ParseInt(s, 10, 64)`: an optional sign and a non-empty run of
decimal digits; `ErrRange` outside of the 64 bit signed integers. -/
def ParseInt (s : String) : Except error Int :=
  match s.data with
  | [] => .error .ErrSyntax
  | c :: cs =>
    let neg : Bool := c == '-'
    let body := if c == '+' || c == '-' then cs else c :: cs
    if body = [] ∨ ¬ body.all isDigit = true then .error .ErrSyntax
    else
      let un := digitsVal body
      if neg then
        if un > 2 ^ 63 then .error .ErrRange else .ok (-(un : Int))
      else
        if un ≥ 2 ^ 63 then .error .ErrRange else .ok (un : Int)

/-- The decimal digits of a number, most significant first; the first
argument bounds the number of digits. -/
def natDigits : Nat → Nat → List Char → List Char
  | 0, _, acc => acc
  | fuel + 1, n, acc =>
    if n < 10 then Char.ofNat (48 + n) :: acc
    else natDigits fuel (n / 10) (Char.ofNat (48 + n % 10) :: acc)

/-- `strconv.FormatInt(i, 10)`, which is what the verbs `%d` and `%v` of `fmt`
print for an `int64`. -/
def FormatInt (i : Int) : String :=
  match i with
  | .ofNat n => ⟨natDigits (n + 1) n []⟩
  | .negSucc n => ⟨'-' :: natDigits (n + 2) (n + 1) []⟩

/-! ### `float64` and `strconv.ParseFloat` -/

/-- A Go `float64` value: a NaN, an infinity, or the finite number
`(-1)^neg * mant * 2^exp`.  The finite values that `ParseFloat` produces have
`mant < 2^53` and `-1074 ≤ exp ≤ 971`; both zeros are finite values with
`mant = 0`.  The zero value of the type is `+0`. -/
inductive float64
  | NaN
  | Inf (neg : Bool)
  | Fin (neg : Bool) (mant : Nat) (exp : Int)
  deriving DecidableEq, Repr

instance : Inhabited float64 := ⟨.Fin false 0 0⟩

/-- The integer `(-1)^neg * mant * 2^(exp - k)`, for `k ≤ exp`. -/
def float64.scaled (neg : Bool) (mant : Nat) (exp k : Int) : Int :=
  (if neg then -1 else 1) * ((mant : Int) * 2 ^ (exp - k).toNat)

/-- Go `x < y` on `float64`: false when an operand is NaN. -/
def float64.lt : float64 → float64 → Bool
  | .NaN, _ => false
  | _, .NaN => false
  | .Inf a, .Inf b => a && !b
  | .Inf a, .Fin _ _ _ => a
  | .Fin _ _ _, .Inf b => !b
  | .Fin n1 m1 e1, .Fin n2 m2 e2 =>
    decide (float64.scaled n1 m1 e1 (min e1 e2) < float64.scaled n2 m2 e2 (min e1 e2))

/-- Go `x > y` on `float64`. -/
def float64.gt (x y : float64) : Bool := float64.lt y x

/-- Go `x == y` on `float64`: false when an operand is NaN, true for the two
zeros. -/
def float64.eq : float64 → float64 → Bool
  | .NaN, _ => false
  | _, .NaN => false
  | .Inf a, .Inf b => a == b
  | .Inf _, .Fin _ _ _ => false
  | .Fin _ _ _, .Inf _ => false
  | .Fin n1 m1 e1, .Fin n2 m2 e2 =>
    decide (float64.scaled n1 m1 e1 (min e1 e2) = float64.scaled n2 m2 e2 (min e1 e2))

/-- The number of binary digits of a number (`bits.Len`); the first argument
bounds it. -/
def bitLen : Nat → Nat → Nat
  | 0, _ => 0
  | fuel + 1, n => if n = 0 then 0 else bitLen fuel (n / 2) + 1

/-- The positive number `num / den` rounded to the nearest `float64`, ties to
even (IEEE 754 unbiased rounding); an infinity with `ErrRange` when the
rounded number is beyond the largest finite value. -/
def roundFloat64 (neg : Bool) (num den : Nat) : float64 × Option error :=
  if num = 0 then (.Fin neg 0 0, none)
  else
    let k0 : Int := (bitLen num num : Int) - (bitLen den den : Int)
    let k : Int := if num * 2 ^ (-k0).toNat < den * 2 ^ k0.toNat then k0 - 1 else k0
    let e : Int := max (k - 52) (-1074)
    let n := num * 2 ^ (-e).toNat
    let d := den * 2 ^ e.toNat
    let q := n / d
    let r := n % d
    let q := if d < 2 * r ∨ (2 * r = d ∧ q % 2 = 1) then q + 1 else q
    let e := if q = 2 ^ 53 then e + 1 else e
    let q := if q = 2 ^ 53 then 2 ^ 52 else q
    if 971 < e then (.Inf neg, some .ErrRange) else (.Fin neg q e, none)

/-- ASCII lower-casing of `strconv` (`commonPrefixLenIgnoreCase`, `lower`). -/
def asciiLower (c : Char) : Char :=
  if 65 ≤ c.toNat ∧ c.toNat ≤ 90 then Char.ofNat (c.toNat + 32) else c

/-- A hexadecimal digit that is a letter. -/
def isHexLetter (c : Char) : Bool :=
  97 ≤ (asciiLower c).toNat && (asciiLower c).toNat ≤ 102

/-- Value of a hexadecimal digit. -/
def hexVal (c : Char) : Nat :=
  if isDigit c then digitVal c else (asciiLower c).toNat - 87

/-- `strconv.special`, on the whole text: `nan`, or an optionally signed `inf`
or `infinity`, in any mixture of cases. -/
def special (s : List Char) : Option float64 :=
  match s with
  | [] => none
  | c :: cs =>
    let body := if c == '+' || c == '-' then cs else c :: cs
    let low := body.map asciiLower
    if low = "inf".data ∨ low = "infinity".data then some (.Inf (c == '-'))
    else if (c :: cs).map asciiLower = "nan".data then some .NaN
    else none

/-- What the digit loop of `strconv.readFloat` has seen. -/
structure mantissa where
  /-- a decimal point was read -/
  sawdot : Bool
  /-- a digit was read -/
  sawdigits : Bool
  /-- an underscore was read -/
  underscores : Bool
  /-- the number written by all the digits read, point ignored -/
  mant : Nat
  /-- the number of digits read after the point -/
  frac : Nat
  deriving DecidableEq, Repr

/-- The digit loop of `strconv.readFloat`: digits, underscores and at most one
point; returns with the text that is left. -/
def readMantissa (hex : Bool) : List Char → mantissa → mantissa × List Char
  | [], st => (st, [])
  | c :: cs, st =>
    if c == '_' then readMantissa hex cs { st with underscores := true }
    else if c == '.' then
      if st.sawdot then (st, c :: cs) else readMantissa hex cs { st with sawdot := true }
    else if isDigit c || (hex && isHexLetter c) then
      readMantissa hex cs
        { st with sawdigits := true
                  mant := (if hex then 16 else 10) * st.mant + hexVal c
                  frac := if st.sawdot then st.frac + 1 else st.frac }
    else (st, c :: cs)

/-- The exponent loop of `strconv.readFloat`: digits and underscores; the
exponent stops growing at 10000.  Returns the exponent, whether an underscore
was read, and the text that is left. -/
def readExponent : List Char → Nat → Bool → Nat × Bool × List Char
  | [], e, u => (e, u, [])
  | c :: cs, e, u =>
    if c == '_' then readExponent cs e true
    else if isDigit c then readExponent cs (if e < 10000 then e * 10 + digitVal c else e) u
    else (e, u, c :: cs)

/-- The loop of `strconv.underscoreOK`; `saw` is `0` at the beginning, `1`
after a digit or base prefix, `2` after an underscore, `3` after anything
else. -/
def underscoreLoop (hex : Bool) : List Char → Nat → Bool
  | [], saw => saw != 2
  | c :: cs, saw =>
    if isDigit c || (hex && isHexLetter c) then underscoreLoop hex cs 1
    else if c == '_' then (if saw != 1 then false else underscoreLoop hex cs 2)
    else if saw == 2 then false
    else underscoreLoop hex cs 3

/-- `strconv.underscoreOK`: underscores only between digits, or between the
base prefix and a digit. -/
def underscoreOK (s : List Char) : Bool :=
  let s := match s with
    | c :: cs => if c == '-' || c == '+' then cs else c :: cs
    | [] => []
  match s with
  | c0 :: c1 :: cs =>
    if c0 == '0' && (asciiLower c1 == 'b' || asciiLower c1 == 'o' || asciiLower c1 == 'x') then
      underscoreLoop (asciiLower c1 == 'x') cs 1
    else underscoreLoop false s 0
  | _ => underscoreLoop false s 0

/-- `strconv.readFloat` followed by the conversion, for a text that is not
special: sign, mantissa (decimal, or hexadecimal after `0x`), exponent (`e`
for decimal, the mandatory `p` for hexadecimal).  `none` is the syntax
error, also when some text is left over. -/
def readFloat (s : List Char) : Option (float64 × Option error) :=
  match s with
  | [] => none
  | c :: cs =>
    let neg : Bool := c == '-'
    let s1 := if c == '+' || c == '-' then cs else c :: cs
    let hex : Bool := match s1 with
      | c0 :: c1 :: _ :: _ => c0 == '0' && asciiLower c1 == 'x'
      | _ => false
    let (m, s2) := readMantissa hex (if hex then s1.drop 2 else s1) ⟨false, false, false, 0, 0⟩
    if !m.sawdigits then none
    else
      let expChar : Char := if hex then 'p' else 'e'
      let finish (e : Int) (us : Bool) : Option (float64 × Option error) :=
        if (m.underscores || us) && !underscoreOK (c :: cs) then none
        else
          let b : Nat := if hex then 2 else 10
          let x : Int := e - (if hex then 4 * m.frac else m.frac : Nat)
          some (roundFloat64 neg (m.mant * b ^ x.toNat) (b ^ (-x).toNat))
      match s2 with
      | [] => if hex then none else finish 0 false
      | c2 :: s3 =>
        if asciiLower c2 == expChar then
          match s3 with
          | [] => none
          | c3 :: s4 =>
            let s5 := if c3 == '+' || c3 == '-' then s4 else c3 :: s4
            match s5 with
            | [] => none
            | c5 :: _ =>
              if !isDigit c5 then none
              else
                match readExponent s5 0 false with
                | (e, us, []) => finish (if c3 == '-' then -(e : Int) else e) us
                | _ => none
        else none

/-- `strconv.ParseFloat(s, 64)`.  On a syntax error the value is `0`; on a
range error it is the infinity of the right sign. -/
def ParseFloat (s : String) : float64 × Option error :=
  match special s.data with
  | some f => (f, none)
  | none =>
    match readFloat s.data with
    | some r => r
    | none => (.Fin false 0 0, some .ErrSyntax)

/-! ## The record model (`row`, lines 192-349) -/

/-- The struct `row`.  `Bar` is an `int64`: it is only ever assigned a result
of `ParseInt(_, 10, 64)` and no arithmetic is done on it. -/
structure row where
  Bar : Int
  Profile : String
  Material : String
  Uy : float64
  CaseUy : String
  Uz : float64
  CaseUz : String
  Lay : float64
  Laz : float64
  Utilization : float64
  Case : String
  deriving DecidableEq, Repr

/-- The zero value of `row` (`var r row`). -/
instance : Inhabited row :=
  ⟨⟨0, "", "", default, "", default, "", default, default, default, ""⟩⟩

/-- What an `interface{}` returned by `ValByCol` holds: a `string`, a
`float64` or an `int64`. -/
inductive Value
  | str (s : String)
  | float (f : float64)
  | int (i : Int)
  deriving DecidableEq, Repr

/-- Go `==` on two such interface values, which is also the equality of the
keys of a `map[interface{}]struct{}`: equal dynamic types and equal values,
floats compared as floats. -/
def Value.eq : Value → Value → Bool
  | .str a, .str b => a == b
  | .float a, .float b => float64.eq a b
  | .int a, .int b => a == b
  | _, _ => false

/-- `func (r *row) IntValByColName(colName string) (int64, error)`. -/
def row.IntValByColName (r : row) (colName : String) : Except error Int :=
  let cname := TrimSpace (ToLower colName)
  if cname = "bar" then .ok r.Bar
  else .error .noSuchColumn

/-- `func (r *row) StringValByColName(colName string) (string, error)`. -/
def row.StringValByColName (r : row) (colName : String) : Except error String :=
  let cname := TrimSpace (ToLower colName)
  if cname = "profile" then .ok r.Profile
  else if cname = "material" then .ok r.Material
  else if cname = "caseuy" then .ok r.CaseUy
  else if cname = "caseuz" then .ok r.CaseUz
  else if cname = "case" then .ok r.Case
  else .error .noSuchColumn

/-- `func (r *row) FloatValByColName(colName string) (float64, error)`. -/
def row.FloatValByColName (r : row) (colName : String) : Except error float64 :=
  let cname := TrimSpace (ToLower colName)
  if cname = "uy" then .ok r.Uy
  else if cname = "uz" then .ok r.Uz
  else if cname = "lay" then .ok r.Lay
  else if cname = "laz" then .ok r.Laz
  else if cname = "utilization" then .ok r.Utilization
  else .error .noSuchColumn

/-- `func (r *row) ValByCol(colName string) (interface{}, error)`: the string
accessor, then the float accessor, then the integer accessor. -/
def row.ValByCol (r : row) (colName : String) : Except error Value :=
  match r.StringValByColName colName with
  | .ok val => .ok (.str val)
  | .error _ =>
    match r.FloatValByColName colName with
    | .ok val => .ok (.float val)
    | .error _ =>
      match r.IntValByColName colName with
      | .ok val => .ok (.int val)
      | .error _ => .error .noSuchColumn

/-- `func getFirstInt(val string) (int64, error)`. -/
def getFirstInt (val : String) : Except error Int :=
  let txt := TrimSpace val
  let m := re.FindString txt
  let m := TrimSpace m
  ParseInt m

/-- `func (r *row) ApplyBarValue(val string) error`. -/
def row.ApplyBarValue (r : row) (val : String) : row × Option error :=
  match getFirstInt val with
  | .error err => (r, some err)
  | .ok barNo => ({ r with Bar := barNo }, none)

/-- `func (r *row) ApplyCaseValue(val string) error`. -/
def row.ApplyCaseValue (r : row) (val : String) : row × Option error :=
  match getFirstInt val with
  | .error err => (r, some err)
  | .ok caseNo => ({ r with Case := FormatInt caseNo }, none)

/-- `func (r *row) ApplyCaseUyValue(val string) error`. -/
def row.ApplyCaseUyValue (r : row) (val : String) : row × Option error :=
  match getFirstInt val with
  | .error err => (r, some err)
  | .ok caseNo => ({ r with CaseUy := FormatInt caseNo }, none)

/-- `func (r *row) ApplyCaseUzValue(val string) error`. -/
def row.ApplyCaseUzValue (r : row) (val : String) : row × Option error :=
  match getFirstInt val with
  | .error err => (r, some err)
  | .ok caseNo => ({ r with CaseUz := FormatInt caseNo }, none)

/-- `func (r *row) ApplyValue(column string, value interface{}) error`; the
value is always the text of a cell.  In the float branches the field is
assigned the value `ParseFloat` returns before the error is looked at. -/
def row.ApplyValue (r : row) (column : String) (value : String) : row × Option error :=
  let vals := TrimSpace value
  if column = "Pręt" then
    match r.ApplyBarValue vals with
    | (r, some err) => (r, some err)
    | (r, none) => (r, none)
  else if column = "Profil" then ({ r with Profile := vals }, none)
  else if column = "Materiał" then ({ r with Material := vals }, none)
  else if column = "Prop.(uy)" then
    match ParseFloat vals with
    | (f, some err) => ({ r with Uy := f }, some err)
    | (f, none) => ({ r with Uy := f }, none)
  else if column = "Przyp.(uy)" then
    match r.ApplyCaseUyValue vals with
    | (r, some err) => (r, some err)
    | (r, none) => (r, none)
  else if column = "Prop.(uz)" then
    match ParseFloat vals with
    | (f, some err) => ({ r with Uz := f }, some err)
    | (f, none) => ({ r with Uz := f }, none)
  else if column = "Przyp.(uz)" then
    match r.ApplyCaseUzValue vals with
    | (r, some err) => (r, some err)
    | (r, none) => (r, none)
  else if column = "Lay" then
    match ParseFloat vals with
    | (f, some err) => ({ r with Lay := f }, some err)
    | (f, none) => ({ r with Lay := f }, none)
  else if column = "Laz" then
    match ParseFloat vals with
    | (f, some err) => ({ r with Laz := f }, some err)
    | (f, none) => ({ r with Laz := f }, none)
  else if column = "Wytęż." then
    match ParseFloat vals with
    | (f, some err) => ({ r with Utilization := f }, some err)
    | (f, none) => ({ r with Utilization := f }, none)
  else if column = "Przypadek" then
    match r.ApplyCaseValue vals with
    | (r, some err) => (r, some err)
    | (r, none) => (r, none)
  else (r, none)

/-! ## The table extractor (lines 154-190, 360-371)

The document is what `goquery` gives: the `tr` elements in document order,
each the texts of its `td` elements in order. -/

/-- A Go `map[int]string`. -/
abbrev colMapT := Nat → Option String

/-- The index expression `colMap[i]`: the zero value `""` for a missing key. -/
def colMapT.index (colMap : colMapT) (i : Nat) : String := (colMap i).getD ""

/-- The body of `headers.Find("td").Each` in `mapColumns`, from cell `i` on. -/
def mapColumns.each : Nat → List String → colMapT → colMapT
  | _, [], mp => mp
  | i, td :: rest, mp =>
    let colName := TrimSpace td
    if colName.length > 0 then mapColumns.each (i + 1) rest (Function.update mp i (some (TrimSpace td)))
    else mapColumns.each (i + 1) rest mp

/-- `func mapColumns(headers *goquery.Selection) map[int]string`. -/
def mapColumns (headers : List String) : colMapT :=
  mapColumns.each 0 headers (fun _ => none)

/-- The body of `s.Find("td").Each` in `NewRowFromSelection`, from cell `i`
on: the state is the record `r` and the variable `err`, which every cell
assigns. -/
def NewRowFromSelection.each (colMap : colMapT) : Nat → List String → row × Option error → row × Option error
  | _, [], st => st
  | i, sm :: rest, (r, _) => NewRowFromSelection.each colMap (i + 1) rest (r.ApplyValue (colMap.index i) sm)

/-- `func NewRowFromSelection(s *goquery.Selection, colMap map[int]string) (*row, error)`. -/
def NewRowFromSelection (s : List String) (colMap : colMapT) : Except error row :=
  match NewRowFromSelection.each colMap 0 s (default, none) with
  | (_, some err) => .error err
  | (r, none) => .ok r

/-- The body of `doc.Find("tr").Each` in `parseHtmlResults`, from row `i` on:
the state is `colMap` and `rows`. -/
def parseHtmlResults.each : Nat → List (List String) → colMapT × List row → colMapT × List row
  | _, [], st => st
  | i, s :: rest, (colMap, rows) =>
    if i = 0 then parseHtmlResults.each (i + 1) rest (mapColumns s, rows)
    else
      match NewRowFromSelection s colMap with
      | .ok r => parseHtmlResults.each (i + 1) rest (colMap, rows ++ [r])
      | .error _ => parseHtmlResults.each (i + 1) rest (colMap, rows)

/-- `func parseHtmlResults(filename string) ([]*row, error)`, from the parsed
document on (opening and parsing the file happen before and are not part of
the embedding). -/
def parseHtmlResults (doc : List (List String)) : Except error (List row) :=
  .ok (parseHtmlResults.each 0 doc (fun _ => none, [])).2

/-! ## The filter engine (lines 85-152) -/

/-- The type `filter func(*row) bool`: one constructor for each function
literal of the package, holding the variables the closure captures.  The map
`s` of the uniq closure is the list of its keys. -/
inductive filter
  | uniq (cname : String) (s : List Value)
  | gt (filterVal : float64) (colName : String)
  | lt (filterVal : float64) (colName : String)
  deriving DecidableEq, Repr

/-- Calling a `filter`: the bodies of the three function literals.  The result
is the returned boolean and the closure with its captured variables after the
call. -/
def filter.call : filter → row → Bool × filter
  | .uniq cname s, val =>
    match val.ValByCol cname with
    | .error _ => (false, .uniq cname s)
    | .ok colval =>
      let ok := s.any (fun k => Value.eq k colval)
      if !ok then (true, .uniq cname (colval :: s))
      else (false, .uniq cname s)
  | .gt filterVal colName, val =>
    match val.FloatValByColName colName with
    | .error _ => (false, .gt filterVal colName)
    | .ok v => (float64.gt v filterVal, .gt filterVal colName)
  | .lt filterVal colName, val =>
    match val.FloatValByColName colName with
    | .error _ => (false, .lt filterVal colName)
    | .ok v => (float64.lt v filterVal, .lt filterVal colName)

/-- `func getUniqFilter(cname string) filter`. -/
def getUniqFilter (cname : String) : filter := .uniq cname []

/-- `func getGreaterThanFilter(filterValString string, colName string) filter`;
`none` is the nil function. -/
def getGreaterThanFilter (filterValString : String) (colName : String) : Option filter :=
  match ParseFloat filterValString with
  | (_, some _) => none
  | (filterVal, none) => some (.gt filterVal colName)

/-- `func getLowerThanFilter(filterValString string, colName string) filter`. -/
def getLowerThanFilter (filterValString : String) (colName : String) : Option filter :=
  match ParseFloat filterValString with
  | (_, some _) => none
  | (filterVal, none) => some (.lt filterVal colName)

/-- `func getFilter(filterName string, filterValue string, colName string) filter`.
In the `uniq` branch the error of `StringValByColName` is logged and the
function goes on to `return getUniqFilter(colName)`. -/
def getFilter (filterName : String) (filterValue : String) (colName : String) : Option filter :=
  let r : row := default
  if filterName = "lt" then
    match r.FloatValByColName colName with
    | .error _ => none
    | .ok _ => getLowerThanFilter filterValue colName
  else if filterName = "gt" then
    match r.FloatValByColName colName with
    | .error _ => none
    | .ok _ => getGreaterThanFilter filterValue colName
  else if filterName = "uniq" then
    match r.StringValByColName colName with
    | .error _ => some (getUniqFilter colName)
    | .ok _ => some (getUniqFilter colName)
  else none

/-- The loop `for _, r := range rows { if filter(r) { results = append(results, r) } }`
of `slsFilterCmdRun`. -/
def slsFilterCmdRun.loop : filter → List row → List row → List row
  | _, [], results => results
  | f, r :: rest, results =>
    match f.call r with
    | (true, f1) => slsFilterCmdRun.loop f1 rest (results ++ [r])
    | (false, f1) => slsFilterCmdRun.loop f1 rest results

/-! ## Projection and the command (lines 41-83) -/

/-- `fmt.Sprintf("%v", val)` for a value that `ValByCol` returns: a string as
it is, an `int64` in decimal.  The text that `fmt` prints for a `float64` is
not modelled: it is the parameter `fmtFloat`. -/
def SprintfV (fmtFloat : float64 → String) : Value → String
  | .str s => s
  | .float f => fmtFloat f
  | .int i => FormatInt i

/-- `strings.Join(elems, sep)`. -/
def Join (elems : List String) (sep : String) : String := sep.intercalate elems

/-- The loop of `printResults`: the slice `rp` is filled in the order of the
records; `none` when `ValByCol` fails, where the function returns. -/
def printResults.loop (fmtFloat : float64 → String) (OutputColumn : String) :
    List row → List String → Option (List String)
  | [], rp => some rp
  | r :: rest, rp =>
    match r.ValByCol OutputColumn with
    | .error _ => none
    | .ok val => printResults.loop fmtFloat OutputColumn rest (rp ++ [SprintfV fmtFloat val])

/-- `func printResults(results []*row)`, with the package variable
`OutputColumn` as an argument.  The result is what the function writes with
`fmt.Println`: `some res` for the line `res`, `none` when it returns without
printing.  The dump of `spew` under the flag `-v` and the log are not part of
the embedding. -/
def printResults (fmtFloat : float64 → String) (OutputColumn : String) (results : List row) :
    Option String :=
  match printResults.loop fmtFloat OutputColumn results [] with
  | none => none
  | some rp => some (Join rp " ")

/-- `func slsFilterCmdRun(cmd *cobra.Command, args []string)`, from the parsed
document on, with the package variables `ColumnName` and `OutputColumn` and
the two arguments `args[0]`, `args[1]` as arguments.  An error is the panic of
`log.Panicf`; otherwise the result is the line written to the standard output,
`none` when the function returns without printing. -/
def slsFilterCmdRun (fmtFloat : float64 → String) (ColumnName OutputColumn : String)
    (doc : List (List String)) (filterName filterValue : String) :
    Except error (Option String) :=
  match parseHtmlResults doc with
  | .error err => .error err
  | .ok rows =>
    if rows.length < 1 then .ok none
    else
      match getFilter filterName filterValue ColumnName with
      | none => .ok none
      | some filter =>
        let results := slsFilterCmdRun.loop filter rows []
        .ok (printResults fmtFloat OutputColumn results)

/-! ## Vocabulary of the statements -/

/-- Go `==` of the values two records have in a column; `false` when the
column does not resolve. -/
def sameColumnValue (cname : String) (r1 r2 : row) : Bool :=
  match r1.ValByCol cname, r2.ValByCol cname with
  | .ok a, .ok b => Value.eq a b
  | _, _ => false

/-- The records a uniq predicate has to keep, by recursion over the list:
a record is kept when no record of `earlier` has an equal column value. -/
def keptFrom (cname : String) : List row → List row → List row
  | _, [] => []
  | earlier, r :: rest =>
    if earlier.any (fun p => sameColumnValue cname p r) then keptFrom cname (earlier ++ [r]) rest
    else r :: keptFrom cname (earlier ++ [r]) rest

/-! ## Theorems -/

/-! ### Column keys -/

/-- The float accessor resolves exactly the five float keys. -/
theorem floatVal_ok_iff (r : row) (colName : String) :
    (∃ v, r.FloatValByColName colName = .ok v) ↔
      TrimSpace (ToLower colName) ∈ ["uy", "uz", "lay", "laz", "utilization"] := by
  unfold row.FloatValByColName
  simp only [List.mem_cons, List.mem_singleton, List.not_mem_nil, or_false]
  split_ifs <;> simp_all

/-- The string accessor resolves exactly the five string keys. -/
theorem stringVal_ok_iff (r : row) (colName : String) :
    (∃ v, r.StringValByColName colName = .ok v) ↔
      TrimSpace (ToLower colName) ∈ ["profile", "material", "caseuy", "caseuz", "case"] := by
  unfold row.StringValByColName
  simp only [List.mem_cons, List.mem_singleton, List.not_mem_nil, or_false]
  split_ifs <;> simp_all

/-- The integer accessor resolves exactly the key `bar`. -/
theorem intVal_ok_iff (r : row) (colName : String) :
    (∃ v, r.IntValByColName colName = .ok v) ↔ TrimSpace (ToLower colName) = "bar" := by
  unfold row.IntValByColName
  dsimp only
  split_ifs <;> simp_all

/-! ### C1: a failing cell that is not the last one -/

/-- C1 (code bug): in the table with header `Pręt | Profil` and the data row
`abc | IPE 200`, `ApplyValue` fails for the first cell, and yet
`NewRowFromSelection` returns no error and the extractor keeps the record:
the variable `err` only remembers the result of the last cell. -/
theorem C1_failing_cell_before_a_good_cell_is_kept :
    (row.ApplyValue default ((mapColumns ["Pręt", "Profil"]).index 0) "abc").2
        = some error.ErrSyntax ∧
    NewRowFromSelection ["abc", "IPE 200"] (mapColumns ["Pręt", "Profil"])
        = .ok { (default : row) with Profile := "IPE 200" } ∧
    parseHtmlResults [["Pręt", "Profil"], ["abc", "IPE 200"]]
        = .ok [{ (default : row) with Profile := "IPE 200" }] := by
  decide

/-! ### C2: `uniq` on a column that is not a string column -/

/-- C2 (code bug): for kind `uniq`, `getFilter` returns the uniq predicate for
every raw value and every column key, also for the keys `uz`, `bar` and
`nosuchcolumn`, which the string accessor does not resolve. -/
theorem C2_uniq_filter_is_never_nil :
    (∀ filterValue colName : String,
      getFilter "uniq" filterValue colName = some (getUniqFilter colName)) ∧
    row.StringValByColName default "uz" = .error error.noSuchColumn ∧
    row.StringValByColName default "bar" = .error error.noSuchColumn ∧
    row.StringValByColName default "nosuchcolumn" = .error error.noSuchColumn ∧
    getFilter "uniq" "" "uz" = some (filter.uniq "uz" []) := by
  refine ⟨?_, by decide, by decide, by decide, by decide⟩
  intro filterValue colName
  have h1 : ("uniq" : String) ≠ "lt" := by decide
  have h2 : ("uniq" : String) ≠ "gt" := by decide
  simp only [getFilter, h1, h2, if_false, if_true]
  split <;> rfl

/-! ### C3: construction of the `lt` and `gt` predicates -/

/-- C3: for kind `lt` and for kind `gt`, `getFilter` returns a predicate if
and only if the float accessor resolves the column key (the key, lower-cased
and trimmed, is one of `uy`, `uz`, `lay`, `laz`, `utilization`) and
`ParseFloat` accepts the raw value; `getFilter("lt", "5.0", "profile")` is
nil. -/
theorem C3_lt_gt_filter_iff_float_column_and_float_value
    (r : row) (filterValue colName : String) :
    ((getFilter "lt" filterValue colName ≠ none ↔
        (∃ v, r.FloatValByColName colName = .ok v) ∧ (ParseFloat filterValue).2 = none) ∧
     (getFilter "gt" filterValue colName ≠ none ↔
        (∃ v, r.FloatValByColName colName = .ok v) ∧ (ParseFloat filterValue).2 = none)) ∧
    ((∃ v, r.FloatValByColName colName = .ok v) ↔
        TrimSpace (ToLower colName) ∈ ["uy", "uz", "lay", "laz", "utilization"]) ∧
    getFilter "lt" "5.0" "profile" = none := by
  have hkey := floatVal_ok_iff r colName
  have hkey0 := floatVal_ok_iff default colName
  have h1 : ("gt" : String) ≠ "lt" := by decide
  refine ⟨⟨?_, ?_⟩, hkey, by decide⟩
  · rw [hkey, ← hkey0]
    simp only [getFilter, if_true]
    cases hf : row.FloatValByColName default colName with
    | error e => simp
    | ok v =>
      simp only [getLowerThanFilter]
      rcases hp : ParseFloat filterValue with ⟨f, _ | e⟩ <;> simp
  · rw [hkey, ← hkey0]
    simp only [getFilter, h1, if_false, if_true]
    cases hf : row.FloatValByColName default colName with
    | error e => simp
    | ok v =>
      simp only [getGreaterThanFilter]
      rcases hp : ParseFloat filterValue with ⟨f, _ | e⟩ <;> simp

/-- `ValByCol` succeeds exactly when one of the three accessors does. -/
theorem valByCol_ok_iff (r : row) (colName : String) :
    (∃ v, r.ValByCol colName = .ok v) ↔
      ((∃ a, r.StringValByColName colName = .ok a) ∨ (∃ b, r.FloatValByColName colName = .ok b) ∨
        (∃ i, r.IntValByColName colName = .ok i)) := by
  unfold row.ValByCol
  cases hs : r.StringValByColName colName with
  | ok a => simp
  | error e =>
    cases hf : r.FloatValByColName colName with
    | ok b => simp
    | error e' =>
      cases hi : r.IntValByColName colName with
      | ok i => simp
      | error e'' => simp

/-! ### C10: the three typed accessors -/

/-- C10: on every record and every column key at most one of the three typed
accessors succeeds; `ValByCol` succeeds exactly when one of them does, and it
returns the value of the accessor that succeeds. -/
theorem C10_accessors_exclusive_and_ValByCol_agrees (r : row) (colName : String) :
    (¬ ((∃ a, r.StringValByColName colName = .ok a) ∧ (∃ b, r.FloatValByColName colName = .ok b)) ∧
     ¬ ((∃ a, r.StringValByColName colName = .ok a) ∧ (∃ i, r.IntValByColName colName = .ok i)) ∧
     ¬ ((∃ b, r.FloatValByColName colName = .ok b) ∧ (∃ i, r.IntValByColName colName = .ok i))) ∧
    ((∃ v, r.ValByCol colName = .ok v) ↔
      ((∃ a, r.StringValByColName colName = .ok a) ∨ (∃ b, r.FloatValByColName colName = .ok b) ∨
        (∃ i, r.IntValByColName colName = .ok i))) ∧
    (∀ a, r.StringValByColName colName = .ok a → r.ValByCol colName = .ok (.str a)) ∧
    (∀ b, r.FloatValByColName colName = .ok b → r.ValByCol colName = .ok (.float b)) ∧
    (∀ i, r.IntValByColName colName = .ok i → r.ValByCol colName = .ok (.int i)) := by
  have hS := stringVal_ok_iff r colName
  have hF := floatVal_ok_iff r colName
  have hI := intVal_ok_iff r colName
  simp only [List.mem_cons, List.mem_singleton, List.not_mem_nil, or_false] at hS hF
  have hSF : ¬ ((∃ a, r.StringValByColName colName = .ok a) ∧
      (∃ b, r.FloatValByColName colName = .ok b)) := by
    rw [hS, hF]
    rintro ⟨h | h | h | h | h, h' | h' | h' | h' | h'⟩ <;> rw [h] at h' <;> revert h' <;> decide
  have hSI : ¬ ((∃ a, r.StringValByColName colName = .ok a) ∧
      (∃ i, r.IntValByColName colName = .ok i)) := by
    rw [hS, hI]
    rintro ⟨h | h | h | h | h, h'⟩ <;> rw [h] at h' <;> revert h' <;> decide
  have hFI : ¬ ((∃ b, r.FloatValByColName colName = .ok b) ∧
      (∃ i, r.IntValByColName colName = .ok i)) := by
    rw [hF, hI]
    rintro ⟨h | h | h | h | h, h'⟩ <;> rw [h] at h' <;> revert h' <;> decide
  refine ⟨⟨hSF, hSI, hFI⟩, valByCol_ok_iff r colName, ?_, ?_, ?_⟩
  · intro a ha
    simp [row.ValByCol, ha]
  · intro b hb
    cases hs : r.StringValByColName colName with
    | ok a => exact absurd ⟨⟨a, hs⟩, ⟨b, hb⟩⟩ hSF
    | error e => simp [row.ValByCol, hs, hb]
  · intro i hi
    cases hs : r.StringValByColName colName with
    | ok a => exact absurd ⟨⟨a, hs⟩, ⟨i, hi⟩⟩ hSI
    | error e =>
      cases hf : r.FloatValByColName colName with
      | ok b => exact absurd ⟨⟨b, hf⟩, ⟨i, hi⟩⟩ hFI
      | error e' => simp [row.ValByCol, hs, hf, hi]

/-! ### Comparison of `float64` values -/

/-- The rational number a finite `float64` stands for, through `scaled`. -/
theorem scaled_cast (neg : Bool) (m : Nat) (e k : Int) (h : k ≤ e) :
    ((float64.scaled neg m e k : Int) : ℚ)
      = ((if neg then -1 else 1) * (m : ℚ) * (2 : ℚ) ^ e) / (2 : ℚ) ^ k := by
  unfold float64.scaled
  have h2 : ((2 : ℚ) ^ (e - k).toNat) = (2 : ℚ) ^ e / (2 : ℚ) ^ k := by
    rw [← zpow_natCast, Int.toNat_of_nonneg (by omega), zpow_sub₀ (by norm_num)]
  push_cast
  rw [h2]
  split_ifs <;> ring

theorem scaled_eq_iff (n1 n2 : Bool) (m1 m2 : Nat) (e1 e2 k : Int) (h1 : k ≤ e1) (h2 : k ≤ e2) :
    float64.scaled n1 m1 e1 k = float64.scaled n2 m2 e2 k ↔
      ((if n1 then -1 else 1) * (m1 : ℚ) * (2 : ℚ) ^ e1)
        = ((if n2 then -1 else 1) * (m2 : ℚ) * (2 : ℚ) ^ e2) := by
  have hk : ((2 : ℚ) ^ k) ≠ 0 := zpow_ne_zero _ (by norm_num)
  rw [← Int.cast_inj (α := ℚ), scaled_cast _ _ _ _ h1, scaled_cast _ _ _ _ h2]
  constructor
  · intro h
    have := congrArg (· * (2 : ℚ) ^ k) h
    simpa [div_mul_cancel₀, hk] using this
  · intro h
    rw [h]

/-- Go `==` on `float64` is transitive. -/
theorem float64.eq_transitive {a b c : float64} (h1 : float64.eq a b = true)
    (h2 : float64.eq b c = true) : float64.eq a c = true := by
  cases a <;> cases b <;> cases c <;> simp_all [float64.eq]
  rename_i n1 m1 e1 n2 m2 e2 n3 m3 e3
  rw [scaled_eq_iff _ _ _ _ _ _ _ (min_le_left _ _) (min_le_right _ _)] at h1 h2 ⊢
  exact h1.trans h2

/-- Go `<` on `float64` is asymmetric. -/
theorem float64.lt_asymm {a b : float64} (h : float64.lt a b = true) : float64.lt b a = false := by
  cases a <;> cases b <;> simp_all [float64.lt]
  rename_i n1 m1 e1 n2 m2 e2
  rw [min_comm e2 e1]
  omega

/-- Go `==` excludes `<` in both directions. -/
theorem float64.eq_not_lt {a b : float64} (h : float64.eq a b = true) :
    float64.lt a b = false ∧ float64.lt b a = false := by
  cases a <;> cases b <;> simp_all [float64.eq, float64.lt]
  rename_i n1 m1 e1 n2 m2 e2
  rw [min_comm e2 e1]
  omega

/-- Two values that are not NaN are comparable. -/
theorem float64.trichotomy {a b : float64} (ha : a ≠ .NaN) (hb : b ≠ .NaN) :
    float64.lt a b = true ∨ float64.lt b a = true ∨ float64.eq a b = true := by
  cases a <;> cases b <;> simp_all [float64.eq, float64.lt]
  · rename_i n1 n2
    cases n1 <;> cases n2 <;> simp
  · rename_i n1 m1 e1 n2 m2 e2
    rw [min_comm e2 e1]
    omega

/-! ### C5: the `lt` and `gt` predicates at the boundary -/

/-- C5 (counterexample): the threshold text `NaN` is accepted by `getFilter`
for the float column `uz`, and for the zero record, whose `uz` is `0`, none of
`v < t`, `v > t`, `v == t` holds. -/
theorem C5_counterexample_NaN_threshold :
    getFilter "lt" "NaN" "uz" = some (filter.lt float64.NaN "uz") ∧
    getFilter "gt" "NaN" "uz" = some (filter.gt float64.NaN "uz") ∧
    row.FloatValByColName default "uz" = .ok (float64.Fin false 0 0) ∧
    ¬ (float64.lt (float64.Fin false 0 0) float64.NaN = true ∨
       float64.gt (float64.Fin false 0 0) float64.NaN = true ∨
       float64.eq (float64.Fin false 0 0) float64.NaN = true) := by
  decide

/-- C5 (amended): for every record, every float column key and every
threshold text accepted by `ParseFloat`, with `v` the value of the record in
the column and `t` the threshold: `getFilter` builds both predicates; the `lt`
predicate accepts the record iff `v < t` and the `gt` predicate iff `v > t`; a
record with `v == t` is accepted by neither, and no record is accepted by
both; at most one of `v < t`, `v > t`, `v == t` holds, and exactly one when
neither `v` nor `t` is a NaN. -/
theorem C5_lt_gt_exclusive_at_the_boundary (r : row) (colName filterValue : String)
    (v t : float64) (hv : r.FloatValByColName colName = .ok v)
    (ht : ParseFloat filterValue = (t, none)) :
    ∃ flt fgt, getFilter "lt" filterValue colName = some flt ∧
      getFilter "gt" filterValue colName = some fgt ∧
      ((flt.call r).1 = true ↔ float64.lt v t = true) ∧
      ((fgt.call r).1 = true ↔ float64.gt v t = true) ∧
      (float64.eq v t = true → (flt.call r).1 = false ∧ (fgt.call r).1 = false) ∧
      ¬ ((flt.call r).1 = true ∧ (fgt.call r).1 = true) ∧
      ¬ (float64.lt v t = true ∧ float64.gt v t = true) ∧
      ¬ (float64.lt v t = true ∧ float64.eq v t = true) ∧
      ¬ (float64.gt v t = true ∧ float64.eq v t = true) ∧
      (v ≠ float64.NaN → t ≠ float64.NaN →
        float64.lt v t = true ∨ float64.gt v t = true ∨ float64.eq v t = true) := by
  have hkey : ∃ v0, row.FloatValByColName default colName = .ok v0 :=
    (floatVal_ok_iff default colName).2 ((floatVal_ok_iff r colName).1 ⟨v, hv⟩)
  obtain ⟨v0, hv0⟩ := hkey
  have h1 : ("gt" : String) ≠ "lt" := by decide
  have hlt : getFilter "lt" filterValue colName = some (filter.lt t colName) := by
    simp [getFilter, hv0, getLowerThanFilter, ht]
  have hgt : getFilter "gt" filterValue colName = some (filter.gt t colName) := by
    simp [getFilter, h1, hv0, getGreaterThanFilter, ht]
  have hasym : ¬ (float64.lt v t = true ∧ float64.gt v t = true) := by
    rintro ⟨ha, hb⟩
    have := float64.lt_asymm ha
    unfold float64.gt at hb
    rw [this] at hb
    exact Bool.false_ne_true hb
  refine ⟨_, _, hlt, hgt, ?_, ?_, ?_, ?_, hasym, ?_, ?_, ?_⟩
  · simp [filter.call, hv]
  · simp [filter.call, hv]
  · intro he
    have := float64.eq_not_lt he
    simp [filter.call, hv, float64.gt, this.1, this.2]
  · simpa [filter.call, hv] using hasym
  · rintro ⟨ha, hb⟩
    rw [(float64.eq_not_lt hb).1] at ha
    exact Bool.false_ne_true ha
  · rintro ⟨ha, hb⟩
    unfold float64.gt at ha
    rw [(float64.eq_not_lt hb).2] at ha
    exact Bool.false_ne_true ha
  · intro hnv hnt
    exact float64.trichotomy hnv hnt

/-- C5 (witness): the zero record, column `uz` and threshold text `5.0`. -/
theorem C5_lt_gt_exclusive_at_the_boundary_witness :
    row.FloatValByColName default "uz" = .ok (float64.Fin false 0 0) ∧
    ParseFloat "5.0" = (float64.Fin false 5629499534213120 (-50), none) ∧
    ∃ flt fgt, getFilter "lt" "5.0" "uz" = some flt ∧
      getFilter "gt" "5.0" "uz" = some fgt ∧
      ((flt.call default).1 = true ↔
        float64.lt (float64.Fin false 0 0) (float64.Fin false 5629499534213120 (-50)) = true) ∧
      ((fgt.call default).1 = true ↔
        float64.gt (float64.Fin false 0 0) (float64.Fin false 5629499534213120 (-50)) = true) ∧
      (float64.eq (float64.Fin false 0 0) (float64.Fin false 5629499534213120 (-50)) = true →
        (flt.call default).1 = false ∧ (fgt.call default).1 = false) ∧
      ¬ ((flt.call default).1 = true ∧ (fgt.call default).1 = true) ∧
      ¬ (float64.lt (float64.Fin false 0 0) (float64.Fin false 5629499534213120 (-50)) = true ∧
         float64.gt (float64.Fin false 0 0) (float64.Fin false 5629499534213120 (-50)) = true) ∧
      ¬ (float64.lt (float64.Fin false 0 0) (float64.Fin false 5629499534213120 (-50)) = true ∧
         float64.eq (float64.Fin false 0 0) (float64.Fin false 5629499534213120 (-50)) = true) ∧
      ¬ (float64.gt (float64.Fin false 0 0) (float64.Fin false 5629499534213120 (-50)) = true ∧
         float64.eq (float64.Fin false 0 0) (float64.Fin false 5629499534213120 (-50)) = true) ∧
      (float64.Fin false 0 0 ≠ float64.NaN → float64.Fin false 5629499534213120 (-50) ≠ float64.NaN →
        float64.lt (float64.Fin false 0 0) (float64.Fin false 5629499534213120 (-50)) = true ∨
        float64.gt (float64.Fin false 0 0) (float64.Fin false 5629499534213120 (-50)) = true ∨
        float64.eq (float64.Fin false 0 0) (float64.Fin false 5629499534213120 (-50)) = true) :=
  ⟨by decide, by decide,
    C5_lt_gt_exclusive_at_the_boundary default "uz" "5.0" _ _ (by decide) (by decide)⟩

/-! ### C4: the uniq predicate and the first occurrences -/

/-- Go `==` on interface values is transitive. -/
theorem Value.eq_transitive_go {a b c : Value} (h1 : Value.eq a b = true) (h2 : Value.eq b c = true) :
    Value.eq a c = true := by
  cases a <;> cases b <;> cases c <;> simp_all [Value.eq]
  exact float64.eq_transitive h1 h2

/-- Whether `ValByCol` resolves a key does not depend on the record. -/
theorem ValByCol_ok_of_ok {r0 : row} {cname : String} (h : ∃ v, r0.ValByCol cname = .ok v)
    (r : row) : ∃ v, r.ValByCol cname = .ok v := by
  have h0 := (valByCol_ok_iff r0 cname).1 h
  exact (valByCol_ok_iff r cname).2 (by
    rcases h0 with h0 | h0 | h0
    · exact Or.inl ((stringVal_ok_iff r cname).2 ((stringVal_ok_iff r0 cname).1 h0))
    · exact Or.inr (Or.inl ((floatVal_ok_iff r cname).2 ((floatVal_ok_iff r0 cname).1 h0)))
    · exact Or.inr (Or.inr ((intVal_ok_iff r cname).2 ((intVal_ok_iff r0 cname).1 h0))))

/-- The loop of `slsFilterCmdRun` with a uniq predicate: when the keys of the
map stand for the column values of the records seen so far, the loop appends
the records that have no equal earlier record. -/
theorem uniq_loop_eq_keptFrom (cname : String) (h : ∃ v, (default : row).ValByCol cname = .ok v) :
    ∀ (rest earlier : List row) (s : List Value) (results : List row),
      (∀ x : Value, s.any (fun k => Value.eq k x) =
        earlier.any (fun p => match p.ValByCol cname with
          | .ok a => Value.eq a x
          | .error _ => false)) →
      slsFilterCmdRun.loop (filter.uniq cname s) rest results
        = results ++ keptFrom cname earlier rest := by
  intro rest
  induction rest with
  | nil => intro earlier s results _; simp [slsFilterCmdRun.loop, keptFrom]
  | cons r rest ih =>
    intro earlier s results hinv
    obtain ⟨x, hx⟩ := ValByCol_ok_of_ok h r
    have hany : earlier.any (fun p => sameColumnValue cname p r) = s.any (fun k => Value.eq k x) := by
      rw [hinv x]
      congr 1
      funext p
      unfold sameColumnValue
      rw [hx]
      cases p.ValByCol cname <;> rfl
    cases hs : s.any (fun k => Value.eq k x) with
    | false =>
      have hstep : (filter.uniq cname s).call r = (true, filter.uniq cname (x :: s)) := by
        simp [filter.call, hx, hs]
      rw [slsFilterCmdRun.loop, hstep]
      simp only
      rw [ih (earlier ++ [r]) (x :: s) (results ++ [r])]
      · simp [keptFrom, hany, hs]
      · intro y
        simp only [List.any_cons, List.any_append, List.any_nil, Bool.or_false, hx]
        rw [hinv y, Bool.or_comm]
    | true =>
      have hstep : (filter.uniq cname s).call r = (false, filter.uniq cname s) := by
        simp [filter.call, hx, hs]
      rw [slsFilterCmdRun.loop, hstep]
      simp only
      rw [ih (earlier ++ [r]) s results]
      · simp [keptFrom, hany, hs]
      · intro y
        simp only [List.any_append, List.any_cons, List.any_nil, Bool.or_false, hx]
        rw [← hinv y]
        cases hxy : Value.eq x y with
        | false => simp
        | true =>
          rw [Bool.or_true]
          obtain ⟨k, hk, hkx⟩ := List.any_eq_true.1 hs
          exact List.any_eq_true.2 ⟨k, hk, Value.eq_transitive_go hkx hxy⟩

/-- The recursion `keptFrom` by positions: the record at position `i` of
`rest` is kept when no record of `earlier` and none of the first `i` records of
`rest` has an equal column value. -/
theorem keptFrom_eq_filter (cname : String) :
    ∀ (rest earlier : List row),
      keptFrom cname earlier rest =
        ((List.range rest.length).filter (fun i =>
          (earlier ++ rest.take i).all
            (fun p => !sameColumnValue cname p (rest.getD i default)))).map
          (fun i => rest.getD i default) := by
  intro rest
  induction rest with
  | nil => intro earlier; simp [keptFrom]
  | cons r rest ih =>
    intro earlier
    rw [keptFrom, ih (earlier ++ [r]), List.length_cons, List.range_succ_eq_map,
      List.filter_cons, List.filter_map]
    have hfun : ((fun i => (earlier ++ List.take i (r :: rest)).all
          (fun p => !sameColumnValue cname p ((r :: rest).getD i default))) ∘ Nat.succ)
        = (fun i => (earlier ++ [r] ++ List.take i rest).all
          (fun p => !sameColumnValue cname p (rest.getD i default))) := by
      funext i
      simp [List.take_succ_cons, List.append_assoc]
    have hmap : ((fun i => (r :: rest).getD i default) ∘ Nat.succ)
        = (fun i => rest.getD i default) := by
      funext i
      simp
    rw [hfun]
    cases hany : earlier.any (fun p => sameColumnValue cname p r) with
    | true =>
      have : (earlier ++ List.take 0 (r :: rest)).all
          (fun p => !sameColumnValue cname p ((r :: rest).getD 0 default)) = false := by
        obtain ⟨p, hp, hpr⟩ := List.any_eq_true.1 hany
        simp only [List.take_zero, List.append_nil, List.getD_cons_zero]
        rw [List.all_eq_false]
        exact ⟨p, hp, by simp [hpr]⟩
      rw [this]
      simp only [Bool.false_eq_true, if_false, if_true, List.map_map, hmap]
    | false =>
      have : (earlier ++ List.take 0 (r :: rest)).all
          (fun p => !sameColumnValue cname p ((r :: rest).getD 0 default)) = true := by
        simp only [List.take_zero, List.append_nil, List.getD_cons_zero]
        rw [List.all_eq_true]
        intro p hp
        have := List.any_eq_false.1 hany p hp
        simpa using this
      rw [this]
      simp only [Bool.false_eq_true, if_false, if_true, List.map_cons, List.map_map, hmap,
        List.getD_cons_zero]

/-- C4 (counterexample): the document with the header `Prop.(uz)` and two
data rows `NaN` gives two identical records whose `uz` is a NaN; the column
value of the second record is the column value of the first, and the uniq
predicate on column `uz` keeps both records. -/
theorem C4_counterexample_NaN_values :
    parseHtmlResults [["Prop.(uz)"], ["NaN"], ["NaN"]]
      = .ok [{ (default : row) with Uz := float64.NaN },
             { (default : row) with Uz := float64.NaN }] ∧
    row.ValByCol { (default : row) with Uz := float64.NaN } "uz"
      = .ok (Value.float float64.NaN) ∧
    slsFilterCmdRun.loop (getUniqFilter "uz")
        [{ (default : row) with Uz := float64.NaN }, { (default : row) with Uz := float64.NaN }] []
      = [{ (default : row) with Uz := float64.NaN },
         { (default : row) with Uz := float64.NaN }] := by
  decide

/-- C4 (amended): for every list of records and every column key that
`ValByCol` resolves, the loop of `slsFilterCmdRun` with a freshly built uniq
predicate keeps, in their order, exactly the records at the positions `i` such
that no earlier record (one of the first `i`) has a column value equal to the
one of record `i`, where equal is Go `==` on the values: identity for strings
and integers, the comparison of `float64` for floats (a NaN is equal to
nothing, so every record with a NaN is kept).  For the column values
`A, B, A, C, B` of column `profile` the positions are 0, 1, 3. -/
theorem C4_uniq_keeps_first_occurrences (rows : List row) (cname : String)
    (h : ∃ v, (default : row).ValByCol cname = .ok v) :
    slsFilterCmdRun.loop (getUniqFilter cname) rows [] =
      ((List.range rows.length).filter (fun i =>
        (rows.take i).all (fun p => !sameColumnValue cname p (rows.getD i default)))).map
        (fun i => rows.getD i default) ∧
    (List.range 5).filter (fun i =>
        (([{ (default : row) with Profile := "A" }, { (default : row) with Profile := "B" },
           { (default : row) with Profile := "A" }, { (default : row) with Profile := "C" },
           { (default : row) with Profile := "B" }] : List row).take i).all
          (fun p => !sameColumnValue "profile" p
            (([{ (default : row) with Profile := "A" }, { (default : row) with Profile := "B" },
               { (default : row) with Profile := "A" }, { (default : row) with Profile := "C" },
               { (default : row) with Profile := "B" }] : List row).getD i default)))
      = [0, 1, 3] ∧
    (∀ a b : Value, (∀ f, a ≠ Value.float f) → (Value.eq a b = true ↔ a = b)) := by
  refine ⟨?_, by decide, ?_⟩
  · have h1 := uniq_loop_eq_keptFrom cname h rows [] [] [] (by intro x; rfl)
    have h2 := keptFrom_eq_filter cname rows []
    unfold getUniqFilter
    rw [h1, h2]
    simp
  · intro a b ha
    cases a <;> cases b <;> simp_all [Value.eq]

/-- C4 (witness): five records with the values `A, B, A, C, B` in column
`profile`; the loop keeps the records at the positions 0, 1, 3. -/
theorem C4_uniq_keeps_first_occurrences_witness :
    (∃ v, (default : row).ValByCol "profile" = .ok v) ∧
    slsFilterCmdRun.loop (getUniqFilter "profile")
      [{ (default : row) with Profile := "A" }, { (default : row) with Profile := "B" },
       { (default : row) with Profile := "A" }, { (default : row) with Profile := "C" },
       { (default : row) with Profile := "B" }] []
      = [{ (default : row) with Profile := "A" }, { (default : row) with Profile := "B" },
         { (default : row) with Profile := "C" }] := by
  have hres : ∃ v, (default : row).ValByCol "profile" = .ok v := ⟨Value.str "", by decide⟩
  refine ⟨hres, ?_⟩
  rw [(C4_uniq_keeps_first_occurrences _ "profile" hres).1]
  decide

/-! ### Leading integer of a text: `getFirstInt` -/

theorem isDigit_not_isSpace {c : Char} (h : isDigit c = true) : isSpace c = false := by
  simp only [isDigit, Bool.and_eq_true, decide_eq_true_eq] at h
  simp only [isSpace, Bool.or_eq_false_iff, Bool.and_eq_false_iff, decide_eq_false_iff_not,
    beq_eq_false_iff_ne, ne_eq]
  omega

theorem isReSpace_isSpace {c : Char} (h : isReSpace c = true) : isSpace c = true := by
  simp only [isReSpace, Bool.or_eq_true, beq_iff_eq] at h
  simp only [isSpace, Bool.or_eq_true, Bool.and_eq_true, decide_eq_true_eq, beq_iff_eq]
  omega

theorem isReSpace_not_isDigit {c : Char} (h : isReSpace c = true) : isDigit c = false := by
  cases hd : isDigit c with
  | false => rfl
  | true =>
    have h1 := isDigit_not_isSpace hd
    rw [isReSpace_isSpace h] at h1
    exact absurd h1 (by decide)

theorem takeWhile_digits (ds : List Char) (c : Char) (rest : List Char)
    (hds : ∀ x ∈ ds, isDigit x = true) (hc : isDigit c = false) :
    (ds ++ c :: rest).takeWhile isDigit = ds ∧ (ds ++ c :: rest).dropWhile isDigit = c :: rest := by
  induction ds with
  | nil => simp [List.takeWhile, List.dropWhile, hc]
  | cons d ds ih =>
    have hd : isDigit d = true := hds d (List.mem_cons_self _ _)
    have := ih (fun x hx => hds x (List.mem_cons_of_mem _ hx))
    simp [List.takeWhile, List.dropWhile, hd, this.1, this.2]

theorem reMatchHere_digits (ds : List Char) (c : Char) (rest : List Char) (hne : ds ≠ [])
    (hds : ∀ x ∈ ds, isDigit x = true) (hc : isReSpace c = true) :
    reMatchHere (ds ++ c :: rest) = some (ds ++ [c]) := by
  obtain ⟨h1, h2⟩ := takeWhile_digits ds c rest hds (isReSpace_not_isDigit hc)
  unfold reMatchHere
  rw [h1, h2]
  cases ds with
  | nil => exact absurd rfl hne
  | cons d ds => simp [hc]

theorem reFindFrom_digits (ds : List Char) (c : Char) (rest : List Char) (hne : ds ≠ [])
    (hds : ∀ x ∈ ds, isDigit x = true) (hc : isReSpace c = true) :
    reFindFrom true (ds ++ c :: rest) = ds ++ [c] := by
  have h := reMatchHere_digits ds c rest hne hds hc
  cases ds with
  | nil => exact absurd rfl hne
  | cons d ds =>
    rw [List.cons_append] at h ⊢
    rw [reFindFrom, h]

theorem trim_digits_space (ds : List Char) (c : Char) (hne : ds ≠ [])
    (hds : ∀ x ∈ ds, isDigit x = true) (hc : isSpace c = true) :
    ((ds ++ [c]).dropWhile isSpace).rdropWhile isSpace = ds := by
  have h1 : (ds ++ [c]).dropWhile isSpace = ds ++ [c] := by
    cases ds with
    | nil => exact absurd rfl hne
    | cons d ds =>
      have hd := isDigit_not_isSpace (hds d (List.mem_cons_self _ _))
      simp [List.dropWhile, hd]
  rw [h1, List.rdropWhile_concat_pos _ _ _ hc, List.rdropWhile_eq_self_iff]
  intro hl
  have := isDigit_not_isSpace (hds _ (List.getLast_mem hl))
  simp [this]

theorem ParseInt_digits (ds : List Char) (hne : ds ≠ []) (hds : ∀ x ∈ ds, isDigit x = true)
    (hr : digitsVal ds < 2 ^ 63) : ParseInt ⟨ds⟩ = .ok (digitsVal ds : Int) := by
  cases ds with
  | nil => exact absurd rfl hne
  | cons d ds =>
    have hd : isDigit d = true := hds d (List.mem_cons_self _ _)
    have hplus : (d == '+') = false := by
      rw [beq_eq_false_iff_ne]
      rintro rfl
      exact absurd hd (by decide)
    have hminus : (d == '-') = false := by
      rw [beq_eq_false_iff_ne]
      rintro rfl
      exact absurd hd (by decide)
    have hall : (d :: ds).all isDigit = true := List.all_eq_true.2 hds
    have hr' : ¬ digitsVal (d :: ds) ≥ 2 ^ 63 := by omega
    simp only [ParseInt, hplus, hminus, Bool.or_self, Bool.false_eq_true, if_false, hall,
      not_true_eq_false, or_false, reduceCtorEq, hr']

/-- The leading integer: when the trimmed text is a non-empty run of digits,
a character of the class `\s` and a remainder, `getFirstInt` returns the number
the digits write, if it is below `2^63`. -/
theorem getFirstInt_digits (val : String) (ds : List Char) (c : Char) (rest : List Char)
    (ht : (TrimSpace val).data = ds ++ c :: rest) (hne : ds ≠ [])
    (hds : ∀ x ∈ ds, isDigit x = true) (hc : isReSpace c = true) (hr : digitsVal ds < 2 ^ 63) :
    getFirstInt val = .ok (digitsVal ds : Int) := by
  unfold getFirstInt re.FindString
  simp only [ht]
  rw [reFindFrom_digits ds c rest hne hds hc]
  unfold TrimSpace
  simp only
  rw [trim_digits_space ds c hne hds (isReSpace_isSpace hc)]
  exact ParseInt_digits ds hne hds hr

/-! ### C6: a run of digits followed by white space -/

/-- C6 (counterexample): in `12\u00a0(case 3)` and in `12\x0b(case 3)` the
digits `12` are followed by a white space character (a no-break space, a
vertical tab: `TrimSpace` removes both), the trimmed text is the text itself,
and `getFirstInt` fails: the class `\s` of the pattern has neither. -/
theorem C6_counterexample_no_break_space :
    isSpace (Char.ofNat 0xA0) = true ∧
    (TrimSpace "12\u00a0(case 3)").data = "12".data ++ Char.ofNat 0xA0 :: "(case 3)".data ∧
    getFirstInt "12\u00a0(case 3)" = .error error.ErrSyntax ∧
    isSpace (Char.ofNat 0x0B) = true ∧
    (TrimSpace "12\x0b(case 3)").data = "12".data ++ Char.ofNat 0x0B :: "(case 3)".data ∧
    getFirstInt "12\x0b(case 3)" = .error error.ErrSyntax := by
  decide

/-- C6 (amended): for every text whose trimmed form begins with a non-empty
run of ASCII digits, of value below `2^63`, immediately followed by a space,
a tab, a line feed, a form feed or a carriage return, `getFirstInt` succeeds
and returns the number the run of digits writes. -/
theorem C6_leading_digits_then_space (val : String) (ds : List Char) (c : Char)
    (rest : List Char) (ht : (TrimSpace val).data = ds ++ c :: rest) (hne : ds ≠ [])
    (hds : ∀ x ∈ ds, isDigit x = true)
    (hc : c = ' ' ∨ c = '\t' ∨ c = '\n' ∨ c = '\x0c' ∨ c = '\r')
    (hr : digitsVal ds ≤ 2 ^ 63 - 1) :
    getFirstInt val = .ok (digitsVal ds : Int) := by
  have hc' : isReSpace c = true := by
    rcases hc with h | h | h | h | h <;> rw [h] <;> decide
  exact getFirstInt_digits val ds c rest ht hne hds hc' (by omega)

/-- C6 (witness): the text `12 (case 3)` gives 12. -/
theorem C6_leading_digits_then_space_witness :
    getFirstInt "12 (case 3)" = .ok 12 :=
  C6_leading_digits_then_space "12 (case 3)" "12".data ' ' "(case 3)".data (by decide)
    (by decide) (by decide) (Or.inl rfl) (by decide)

/-! ### Trimming -/

theorem dropWhile_space_append (pre l : List Char) (hpre : ∀ x ∈ pre, isSpace x = true) :
    (pre ++ l).dropWhile isSpace = l.dropWhile isSpace := by
  induction pre with
  | nil => rfl
  | cons a pre ih =>
    have ha := hpre a (List.mem_cons_self _ _)
    simp only [List.cons_append, List.dropWhile_cons, ha, if_true]
    exact ih (fun x hx => hpre x (List.mem_cons_of_mem _ hx))

theorem rdropWhile_space_append (l post : List Char) (hpost : ∀ x ∈ post, isSpace x = true) :
    (l ++ post).rdropWhile isSpace = l.rdropWhile isSpace := by
  induction post using List.reverseRecOn with
  | nil => simp
  | append_singleton post a ih =>
    have ha := hpost a (by simp)
    rw [← List.append_assoc, List.rdropWhile_concat_pos _ _ _ ha]
    exact ih (fun x hx => hpost x (by simp [hx]))

theorem dropWhile_space_digits (ds l : List Char) (hne : ds ≠ [])
    (hds : ∀ x ∈ ds, isDigit x = true) : (ds ++ l).dropWhile isSpace = ds ++ l := by
  cases ds with
  | nil => exact absurd rfl hne
  | cons d ds =>
    have hd := isDigit_not_isSpace (hds d (List.mem_cons_self _ _))
    simp [List.dropWhile, hd]

theorem rdropWhile_space_digits (ds : List Char) (hds : ∀ x ∈ ds, isDigit x = true) :
    ds.rdropWhile isSpace = ds := by
  rw [List.rdropWhile_eq_self_iff]
  intro hl
  have := isDigit_not_isSpace (hds _ (List.getLast_mem hl))
  simp [this]

/-- `TrimSpace` of a trimmed text is the text. -/
theorem TrimSpace_idem (s : String) : TrimSpace (TrimSpace s) = TrimSpace s := by
  unfold TrimSpace
  simp only
  congr 1
  have h1 : ((s.data.dropWhile isSpace).rdropWhile isSpace).dropWhile isSpace
      = (s.data.dropWhile isSpace).rdropWhile isSpace := by
    rw [List.dropWhile_eq_self_iff]
    intro hl
    obtain ⟨u, hu⟩ := List.rdropWhile_prefix isSpace (l := s.data.dropWhile isSpace)
    have hne : s.data.dropWhile isSpace ≠ [] := by
      intro h0
      rw [h0] at hl
      simp at hl
    have hnot := List.head_dropWhile_not isSpace s.data hne
    have hhead : ((s.data.dropWhile isSpace).rdropWhile isSpace).get ⟨0, hl⟩
        = (s.data.dropWhile isSpace).head hne := by
      generalize (s.data.dropWhile isSpace).rdropWhile isSpace = t at hl hu
      cases t with
      | nil => simp at hl
      | cons a t =>
        simp only [← hu, List.cons_append, List.head_cons]
        rfl
    rw [hhead]
    simpa using hnot
  rw [h1, List.rdropWhile_idempotent]

/-! ### C7: a run of digits with white space around it only -/

theorem reFindFrom_all_digits (ds : List Char) (hds : ∀ x ∈ ds, isDigit x = true) :
    ∀ b, reFindFrom b ds = [] := by
  induction ds with
  | nil => intro b; cases b <;> rfl
  | cons d ds ih =>
    intro b
    have hrest := ih (fun x hx => hds x (List.mem_cons_of_mem _ hx))
    cases b with
    | false => rw [reFindFrom]; exact hrest _
    | true =>
      have hnone : reMatchHere (d :: ds) = none := by
        unfold reMatchHere
        rw [List.dropWhile_eq_nil_iff.2 (by simpa using hds)]
        split
        · rename_i heq
          exact absurd heq (by simp)
        · rfl
      rw [reFindFrom, hnone]
      exact hrest _

/-- C7 (counterexample): the text `  7\t` (two spaces, the digit 7, a tab) is a
run of digits with white space around it, and `getFirstInt` fails on it. -/
theorem C7_counterexample_bare_digit :
    ("  7\t" : String).data = "  ".data ++ "7".data ++ "\t".data ∧
    getFirstInt "  7\t" = .error error.ErrSyntax := by
  decide

/-- C7 (amended): for every text that consists of a non-empty run of ASCII
digits with only white space before and after it, `getFirstInt` returns an
error: the trimmed text is the bare run of digits, and the pattern needs a
character of the class `\s` after the digits. -/
theorem C7_digits_between_spaces_fail (val : String) (pre ds post : List Char)
    (hval : val.data = pre ++ ds ++ post) (hne : ds ≠ [])
    (hds : ∀ x ∈ ds, isDigit x = true) (hpre : ∀ x ∈ pre, isSpace x = true)
    (hpost : ∀ x ∈ post, isSpace x = true) :
    getFirstInt val = .error error.ErrSyntax := by
  have ht : TrimSpace val = ⟨ds⟩ := by
    unfold TrimSpace
    rw [hval, List.append_assoc, dropWhile_space_append pre _ hpre,
      dropWhile_space_digits ds post hne hds, rdropWhile_space_append ds post hpost,
      rdropWhile_space_digits ds hds]
  unfold getFirstInt re.FindString
  simp only [ht]
  rw [reFindFrom_all_digits ds hds]
  decide

/-- C7 (witness): the text `  7\t`. -/
theorem C7_digits_between_spaces_fail_witness :
    getFirstInt "  7\t" = .error error.ErrSyntax :=
  C7_digits_between_spaces_fail "  7\t" "  ".data "7".data "\t".data (by decide) (by decide)
    (by decide) (by decide) (by decide)

/-! ### C8: no line begins with an integer -/

theorem reMatchHere_some {s m : List Char} (h : reMatchHere s = some m) :
    ∃ ds c rest, s = ds ++ c :: rest ∧ ds ≠ [] ∧ (∀ x ∈ ds, isDigit x = true) ∧
      isReSpace c = true := by
  unfold reMatchHere at h
  split at h
  · rename_i d ds c rest htake hdrop
    refine ⟨s.takeWhile isDigit, c, rest, ?_, ?_, ?_, ?_⟩
    · rw [← hdrop, List.takeWhile_append_dropWhile]
    · rw [htake]; simp
    · intro x hx
      exact List.mem_takeWhile_imp hx
    · by_contra hc
      simp [hc] at h
  · exact absurd h (by simp)

/-- When no position at the beginning of a line carries a match, `FindString`
finds nothing.  The flag says whether the head of the text begins a line. -/
theorem reFindFrom_nil_of_no_line :
    ∀ (s : List Char) (b : Bool),
      (∀ pre ds c rest, s = pre ++ ds ++ c :: rest → (pre = [] → b = true) →
        (pre ≠ [] → pre.getLast? = some '\n') → ds ≠ [] → (∀ x ∈ ds, isDigit x = true) →
        isReSpace c = true → False) →
      reFindFrom b s = [] := by
  intro s
  induction s with
  | nil => intro b _; cases b <;> rfl
  | cons c0 cs ih =>
    intro b H
    have hrec : reFindFrom (c0.toNat == 10) cs = [] := by
      apply ih
      intro pre ds c rest hs hb hlast hne hds hc
      refine H (c0 :: pre) ds c rest (by rw [hs]; simp) (by simp) ?_ hne hds hc
      intro _
      cases pre with
      | nil =>
        have h10 : c0.toNat = 10 := by simpa using hb rfl
        have : c0 = '\n' := by
          rw [← Char.ofNat_toNat c0, h10]
        simp [this]
      | cons p pre =>
        have := hlast (by simp)
        rw [List.getLast?_cons_cons]
        exact this
    cases b with
    | false => rw [reFindFrom]; exact hrec
    | true =>
      cases hm : reMatchHere (c0 :: cs) with
      | some m =>
        obtain ⟨ds, c, rest, hs, hne, hds, hc⟩ := reMatchHere_some hm
        exact absurd (H [] ds c rest (by simpa using hs) (fun _ => rfl) (by simp) hne hds hc) id
      | none => rw [reFindFrom, hm]; exact hrec

/-- When no line of the trimmed text begins with a run of digits and a `\s`
character, `getFirstInt` fails. -/
theorem getFirstInt_no_line (val : String)
    (hno : ∀ pre ds c rest, (TrimSpace val).data = pre ++ ds ++ c :: rest →
      (pre = [] ∨ pre.getLast? = some '\n') → ds ≠ [] → (∀ x ∈ ds, isDigit x = true) →
      isReSpace c = true → False) :
    getFirstInt val = .error error.ErrSyntax := by
  have h : reFindFrom true (TrimSpace val).data = [] := by
    apply reFindFrom_nil_of_no_line
    intro pre ds c rest hs _ hlast hne hds hc
    refine hno pre ds c rest hs ?_ hne hds hc
    by_cases hp : pre = []
    · exact Or.inl hp
    · exact Or.inr (hlast hp)
  unfold getFirstInt re.FindString
  simp only [h]
  decide

/-- C8 (counterexample): the trimmed form of the two-line text `abc\n12 x`
begins with `abc`, not with a digit, and `getFirstInt` returns 12, taken from
the second line; `ApplyValue` under the label `Pręt` stores it without an
error. -/
theorem C8_counterexample_second_line :
    (TrimSpace "abc\n12 x").data = 'a' :: "bc\n12 x".data ∧ isDigit 'a' = false ∧
    getFirstInt "abc\n12 x" = .ok 12 ∧
    row.ApplyValue default "Pręt" "abc\n12 x" = ({ (default : row) with Bar := 12 }, none) := by
  decide

/-- C8 (amended): for every text whose trimmed form has no line (the
beginning of the text, or the text after a line feed) that begins with a
non-empty run of ASCII digits immediately followed by a character of the class
`\s`, `getFirstInt` returns an error, and so does `ApplyValue` under each of
the labels `Pręt`, `Przypadek`, `Przyp.(uy)`, `Przyp.(uz)`, on every record;
the text `abc` is one of them. -/
theorem C8_no_leading_integer_fails (val : String)
    (hno : ∀ pre ds c rest, (TrimSpace val).data = pre ++ ds ++ c :: rest →
      (pre = [] ∨ pre.getLast? = some '\n') → ds ≠ [] → (∀ x ∈ ds, isDigit x = true) →
      isReSpace c = true → False) :
    getFirstInt val = .error error.ErrSyntax ∧
    (∀ r : row, (r.ApplyValue "Pręt" val).2 = some error.ErrSyntax ∧
      (r.ApplyValue "Przypadek" val).2 = some error.ErrSyntax ∧
      (r.ApplyValue "Przyp.(uy)" val).2 = some error.ErrSyntax ∧
      (r.ApplyValue "Przyp.(uz)" val).2 = some error.ErrSyntax) ∧
    getFirstInt "abc" = .error error.ErrSyntax := by
  have h1 := getFirstInt_no_line val hno
  have h2 : getFirstInt (TrimSpace val) = .error error.ErrSyntax := by
    apply getFirstInt_no_line
    rw [TrimSpace_idem]
    exact hno
  refine ⟨h1, ?_, by decide⟩
  intro r
  refine ⟨?_, ?_, ?_, ?_⟩
  · simp [row.ApplyValue, row.ApplyBarValue, h2]
  · simp [row.ApplyValue, row.ApplyCaseValue, h2]
  · simp [row.ApplyValue, row.ApplyCaseUyValue, h2]
  · simp [row.ApplyValue, row.ApplyCaseUzValue, h2]

/-- C8 (witness): the text `abc`, on the zero record. -/
theorem C8_no_leading_integer_fails_witness :
    getFirstInt "abc" = .error error.ErrSyntax ∧
    (row.ApplyValue default "Pręt" "abc").2 = some error.ErrSyntax ∧
    (row.ApplyValue default "Przypadek" "abc").2 = some error.ErrSyntax ∧
    (row.ApplyValue default "Przyp.(uy)" "abc").2 = some error.ErrSyntax ∧
    (row.ApplyValue default "Przyp.(uz)" "abc").2 = some error.ErrSyntax := by
  have h := C8_no_leading_integer_fails "abc" (by
    intro pre ds c rest hs _ hne hds _
    have ht : (TrimSpace "abc").data = ['a', 'b', 'c'] := by decide
    rw [ht] at hs
    cases ds with
    | nil => exact hne rfl
    | cons d ds =>
      have hd : isDigit d = true := hds d (List.mem_cons_self _ _)
      have hmem : d ∈ ['a', 'b', 'c'] := by
        rw [hs]
        simp
      have hall : ∀ x ∈ ['a', 'b', 'c'], isDigit x = false := by decide
      rw [hall d hmem] at hd
      exact Bool.false_ne_true hd)
  exact ⟨h.1, (h.2.1 default).1, (h.2.1 default).2.1, (h.2.1 default).2.2.1,
    (h.2.1 default).2.2.2⟩

/-! ### Decimal digits -/

theorem digit_char (d : Nat) (hd : d < 10) :
    isDigit (Char.ofNat (48 + d)) = true ∧ digitVal (Char.ofNat (48 + d)) = d := by
  interval_cases d <;> decide

theorem digitsVal_concat (l : List Char) (c : Char) :
    digitsVal (l ++ [c]) = 10 * digitsVal l + digitVal c := by
  simp [digitsVal, List.foldl_append]

theorem natDigits_acc : ∀ (fuel n : Nat) (acc : List Char),
    natDigits fuel n acc = natDigits fuel n [] ++ acc := by
  intro fuel
  induction fuel with
  | zero => intro n acc; simp [natDigits]
  | succ f ih =>
    intro n acc
    unfold natDigits
    split_ifs with h
    · simp
    · rw [ih (n / 10) (_ :: acc), ih (n / 10) [_]]
      simp

/-- With enough fuel `natDigits` writes a non-empty run of digits whose value
is the number. -/
theorem natDigits_spec : ∀ (fuel n : Nat), n < fuel →
    (∀ x ∈ natDigits fuel n [], isDigit x = true) ∧ natDigits fuel n [] ≠ [] ∧
      digitsVal (natDigits fuel n []) = n := by
  intro fuel
  induction fuel with
  | zero => intro n h; omega
  | succ f ih =>
    intro n hn
    unfold natDigits
    split_ifs with h
    · obtain ⟨h1, h2⟩ := digit_char n h
      refine ⟨by simpa using h1, by simp, ?_⟩
      simp [digitsVal, h2]
    · obtain ⟨h1, h2⟩ := digit_char (n % 10) (Nat.mod_lt _ (by norm_num))
      obtain ⟨i1, i2, i3⟩ := ih (n / 10) (by omega)
      rw [natDigits_acc]
      refine ⟨?_, by simp, ?_⟩
      · intro x hx
        rcases List.mem_append.1 hx with hx | hx
        · exact i1 x hx
        · rw [List.mem_singleton.1 hx]; exact h1
      · rw [digitsVal_concat, i3, h2]
        omega

/-- The digits `natDigits` writes for a positive number do not begin with `0`. -/
theorem natDigits_head : ∀ (fuel n : Nat), n < fuel → 0 < n →
    (natDigits fuel n []).head? ≠ some '0' := by
  intro fuel
  induction fuel with
  | zero => intro n h; omega
  | succ f ih =>
    intro n hn hpos
    unfold natDigits
    split_ifs with h
    · interval_cases n <;> decide
    · rw [natDigits_acc]
      have hne := (natDigits_spec f (n / 10) (by omega)).2.1
      have := ih (n / 10) (by omega) (by omega)
      cases hl : natDigits f (n / 10) [] with
      | nil => exact absurd hl hne
      | cons a l =>
        rw [hl] at this
        simpa using this

theorem rdropWhile_append_of_exists (p : Char → Bool) (a : List Char) :
    ∀ b : List Char, (∃ c ∈ b, p c = false) → (a ++ b).rdropWhile p = a ++ b.rdropWhile p := by
  intro b
  induction b using List.reverseRecOn with
  | nil => rintro ⟨c, hc, _⟩; simp at hc
  | append_singleton b x ih =>
    rintro ⟨c, hc, hpc⟩
    cases hx : p x with
    | false =>
      rw [← List.append_assoc, List.rdropWhile_concat_neg _ _ _ (by simp [hx]),
        List.rdropWhile_concat_neg _ _ _ (by simp [hx]), List.append_assoc]
    | true =>
      have hcb : c ∈ b := by
        rcases List.mem_append.1 hc with h | h
        · exact h
        · rw [List.mem_singleton.1 h, hx] at hpc
          exact absurd hpc (by decide)
      rw [← List.append_assoc, List.rdropWhile_concat_pos _ _ _ hx,
        List.rdropWhile_concat_pos _ _ _ hx]
      exact ih ⟨c, hcb, hpc⟩

/-! ### C9: round trip of the bar column -/

/-- C9 (counterexample): with `n = 12` and the empty remainder the cell text
is `12 `, which `ApplyValue` trims to `12`; the pattern finds no white space
after the digits and `ApplyValue` fails under the label `Pręt`. -/
theorem C9_counterexample_empty_remainder :
    FormatInt 12 ++ " " ++ "" = "12 " ∧
    row.ApplyValue default "Pręt" (FormatInt 12 ++ " " ++ "")
      = (default, some error.ErrSyntax) := by
  decide

/-- C9 (amended): for every natural number `n` within the `int64` range and
every remainder text `s` that has a character that is not white space,
applying the cell text made of the decimal digits of `n`, one space and `s`
under the label `Pręt` succeeds (on the empty record and on any other), the
field `Bar` is `n`, and the `%v` rendering of column `bar` of the record is
the text of the decimal digits of `n`: a non-empty run of ASCII digits that
writes `n` and does not begin with `0` unless `n` is `0`. -/
theorem C9_bar_round_trip (r : row) (n : Nat) (s : String) (fmtFloat : float64 → String)
    (hn : n ≤ 2 ^ 63 - 1) (hs : ∃ c ∈ s.data, isSpace c = false) :
    r.ApplyValue "Pręt" (FormatInt n ++ " " ++ s) = ({ r with Bar := n }, none) ∧
    (∃ v, row.ValByCol { r with Bar := n } "bar" = .ok v ∧
      SprintfV fmtFloat v = FormatInt n) ∧
    ((FormatInt n).data ≠ [] ∧ (∀ x ∈ (FormatInt n).data, isDigit x = true) ∧
      digitsVal (FormatInt n).data = n ∧ (0 < n → (FormatInt n).data.head? ≠ some '0')) := by
  obtain ⟨d1, d2, d3⟩ := natDigits_spec (n + 1) n (Nat.lt_succ_self n)
  have hfmt : FormatInt (n : Int) = ⟨natDigits (n + 1) n []⟩ := rfl
  have hdata : (FormatInt (n : Int) ++ " " ++ s).data
      = natDigits (n + 1) n [] ++ ' ' :: s.data := by
    rw [hfmt]
    simp [String.data_append]
  have htrim : (TrimSpace (FormatInt (n : Int) ++ " " ++ s)).data
      = natDigits (n + 1) n [] ++ ' ' :: s.data.rdropWhile isSpace := by
    unfold TrimSpace
    simp only [hdata]
    rw [dropWhile_space_digits _ _ d2 d1,
      rdropWhile_append_of_exists isSpace _ (' ' :: s.data)
        (by obtain ⟨c, hc, hpc⟩ := hs; exact ⟨c, List.mem_cons_of_mem _ hc, hpc⟩)]
    congr 1
    exact rdropWhile_append_of_exists isSpace [' '] s.data hs
  have hget : getFirstInt (TrimSpace (FormatInt (n : Int) ++ " " ++ s)) = .ok (n : Int) := by
    have := getFirstInt_digits (TrimSpace (FormatInt (n : Int) ++ " " ++ s))
      (natDigits (n + 1) n []) ' ' (s.data.rdropWhile isSpace)
      (by rw [TrimSpace_idem]; exact htrim) d2 d1 (by decide) (by rw [d3]; omega)
    rw [d3] at this
    exact this
  have hbar : TrimSpace (ToLower "bar") = "bar" := by decide
  refine ⟨?_, ⟨Value.int n, ?_, rfl⟩, ?_⟩
  · simp [row.ApplyValue, row.ApplyBarValue, hget]
  · simp [row.ValByCol, row.StringValByColName, row.FloatValByColName, row.IntValByColName, hbar]
  · rw [hfmt]
    exact ⟨d2, d1, d3, natDigits_head (n + 1) n (Nat.lt_succ_self n)⟩

/-- C9 (witness): the cell text `12 (something)` gives the output `12`. -/
theorem C9_bar_round_trip_witness :
    FormatInt 12 ++ " " ++ "(something)" = "12 (something)" ∧
    row.ApplyValue default "Pręt" "12 (something)" = ({ (default : row) with Bar := 12 }, none) ∧
    SprintfV (fun _ => "") (Value.int 12) = "12" := by
  have h := C9_bar_round_trip default 12 "(something)" (fun _ => "") (by decide)
    ⟨'(', by decide, by decide⟩
  have h12 : FormatInt 12 ++ " " ++ "(something)" = "12 (something)" := by decide
  refine ⟨h12, ?_, by decide⟩
  rw [← h12]
  exact h.1

/-! ### C11: the recognized column keys -/

theorem toLowerRune_idem (c : Char) : toLowerRune (toLowerRune c) = toLowerRune c := by
  by_cases h1 : 65 ≤ c.toNat ∧ c.toNat ≤ 90
  · obtain ⟨n, hn, rfl⟩ : ∃ n, (65 ≤ n ∧ n ≤ 90) ∧ c = Char.ofNat n :=
      ⟨c.toNat, h1, (Char.ofNat_toNat c).symm⟩
    obtain ⟨hlo, hhi⟩ := hn
    interval_cases n <;> decide
  · by_cases h2 : c.toNat = 0x130
    · have : toLowerRune c = 'i' := by simp [toLowerRune, h1, h2]
      rw [this]
      decide
    · by_cases h3 : c.toNat = 0x212A
      · have : toLowerRune c = 'k' := by simp [toLowerRune, h1, h2, h3]
        rw [this]
        decide
      · have : toLowerRune c = c := by simp [toLowerRune, h1, h2, h3]
        rw [this, this]

/-- Lower-casing a lower-cased and trimmed text changes nothing. -/
theorem ToLower_TrimSpace_ToLower (k : String) :
    ToLower (TrimSpace (ToLower k)) = TrimSpace (ToLower k) := by
  unfold ToLower TrimSpace
  simp only
  congr 1
  have hmem : ∀ x ∈ ((k.data.map toLowerRune).dropWhile isSpace).rdropWhile isSpace,
      toLowerRune x = x := by
    intro x hx
    have h1 : x ∈ (k.data.map toLowerRune).dropWhile isSpace :=
      (List.rdropWhile_prefix isSpace _).subset hx
    have h2 : x ∈ k.data.map toLowerRune := (List.dropWhile_suffix isSpace).subset h1
    obtain ⟨y, _, rfl⟩ := List.mem_map.1 h2
    exact toLowerRune_idem y
  calc List.map toLowerRune (((k.data.map toLowerRune).dropWhile isSpace).rdropWhile isSpace)
      = List.map id (((k.data.map toLowerRune).dropWhile isSpace).rdropWhile isSpace) :=
        List.map_congr_left hmem
    _ = _ := List.map_id _

/-- The canonical form of a key is its own canonical form. -/
theorem canonical_key_idem (k : String) :
    TrimSpace (ToLower (TrimSpace (ToLower k))) = TrimSpace (ToLower k) := by
  rw [ToLower_TrimSpace_ToLower, TrimSpace_idem]

/-- `ValByCol` looks at a key through its lower-cased, trimmed form only. -/
theorem ValByCol_congr (r : row) (a b : String)
    (h : TrimSpace (ToLower a) = TrimSpace (ToLower b)) : r.ValByCol a = r.ValByCol b := by
  simp only [row.ValByCol, row.StringValByColName, row.FloatValByColName,
    row.IntValByColName, h]

/-- C11: for every record and every key `k`, `ValByCol(k)` returns an error if
and only if `k`, lower-cased and then trimmed, is not one of the eleven keys
`profile`, `material`, `caseuy`, `caseuz`, `case`, `uz`, `uy`, `lay`, `laz`,
`utilization`, `bar`; and `ValByCol(k)` is `ValByCol` of the lower-cased,
trimmed `k`, so that the keys ` UZ ` and `uz` give the same result. -/
theorem C11_ValByCol_error_iff_unknown_key (r : row) (k : String) :
    ((∃ e, r.ValByCol k = .error e) ↔
      TrimSpace (ToLower k) ∉ ["profile", "material", "caseuy", "caseuz", "case", "uz", "uy",
        "lay", "laz", "utilization", "bar"]) ∧
    r.ValByCol k = r.ValByCol (TrimSpace (ToLower k)) ∧
    r.ValByCol " UZ " = r.ValByCol "uz" := by
  refine ⟨?_, ValByCol_congr r k (TrimSpace (ToLower k)) (canonical_key_idem k).symm,
    ValByCol_congr r " UZ " "uz" (by decide)⟩
  have hok := valByCol_ok_iff r k
  rw [stringVal_ok_iff, floatVal_ok_iff, intVal_ok_iff] at hok
  have herr : (∃ e, r.ValByCol k = .error e) ↔ ¬ ∃ v, r.ValByCol k = .ok v := by
    cases r.ValByCol k <;> simp
  rw [herr, hok]
  simp only [List.mem_cons, List.mem_singleton, List.not_mem_nil, or_false]
  refine not_congr ⟨?_, ?_⟩
  · rintro ((h | h | h | h | h) | (h | h | h | h | h) | h) <;> simp [h]
  · rintro (h | h | h | h | h | h | h | h | h | h | h) <;> simp [h]

/-! ### `ApplyValue` label by label -/

theorem ApplyValue_bar (r : row) (value : String) :
    r.ApplyValue "Pręt" value = r.ApplyBarValue (TrimSpace value) := by
  simp only [row.ApplyValue, if_true]
  rcases r.ApplyBarValue (TrimSpace value) with ⟨r1, _ | e⟩ <;> rfl

theorem ApplyValue_case (r : row) (value : String) :
    r.ApplyValue "Przypadek" value = r.ApplyCaseValue (TrimSpace value) := by
  simp only [row.ApplyValue, if_true, String.reduceEq, if_false]
  rcases r.ApplyCaseValue (TrimSpace value) with ⟨r1, _ | e⟩ <;> rfl

theorem ApplyValue_caseUy (r : row) (value : String) :
    r.ApplyValue "Przyp.(uy)" value = r.ApplyCaseUyValue (TrimSpace value) := by
  simp only [row.ApplyValue, if_true, String.reduceEq, if_false]
  rcases r.ApplyCaseUyValue (TrimSpace value) with ⟨r1, _ | e⟩ <;> rfl

theorem ApplyValue_caseUz (r : row) (value : String) :
    r.ApplyValue "Przyp.(uz)" value = r.ApplyCaseUzValue (TrimSpace value) := by
  simp only [row.ApplyValue, if_true, String.reduceEq, if_false]
  rcases r.ApplyCaseUzValue (TrimSpace value) with ⟨r1, _ | e⟩ <;> rfl

theorem ApplyValue_uy (r : row) (value : String) :
    r.ApplyValue "Prop.(uy)" value
      = ({ r with Uy := (ParseFloat (TrimSpace value)).1 }, (ParseFloat (TrimSpace value)).2) := by
  simp only [row.ApplyValue, if_true, String.reduceEq, if_false]
  rcases ParseFloat (TrimSpace value) with ⟨f, _ | e⟩ <;> rfl

theorem ApplyValue_uz (r : row) (value : String) :
    r.ApplyValue "Prop.(uz)" value
      = ({ r with Uz := (ParseFloat (TrimSpace value)).1 }, (ParseFloat (TrimSpace value)).2) := by
  simp only [row.ApplyValue, if_true, String.reduceEq, if_false]
  rcases ParseFloat (TrimSpace value) with ⟨f, _ | e⟩ <;> rfl

theorem ApplyValue_lay (r : row) (value : String) :
    r.ApplyValue "Lay" value
      = ({ r with Lay := (ParseFloat (TrimSpace value)).1 }, (ParseFloat (TrimSpace value)).2) := by
  simp only [row.ApplyValue, if_true, String.reduceEq, if_false]
  rcases ParseFloat (TrimSpace value) with ⟨f, _ | e⟩ <;> rfl

theorem ApplyValue_laz (r : row) (value : String) :
    r.ApplyValue "Laz" value
      = ({ r with Laz := (ParseFloat (TrimSpace value)).1 }, (ParseFloat (TrimSpace value)).2) := by
  simp only [row.ApplyValue, if_true, String.reduceEq, if_false]
  rcases ParseFloat (TrimSpace value) with ⟨f, _ | e⟩ <;> rfl

theorem ApplyValue_utilization (r : row) (value : String) :
    r.ApplyValue "Wytęż." value
      = ({ r with Utilization := (ParseFloat (TrimSpace value)).1 },
          (ParseFloat (TrimSpace value)).2) := by
  simp only [row.ApplyValue, if_true, String.reduceEq, if_false]
  rcases ParseFloat (TrimSpace value) with ⟨f, _ | e⟩ <;> rfl

theorem ApplyValue_profile (r : row) (value : String) :
    r.ApplyValue "Profil" value = ({ r with Profile := TrimSpace value }, none) := by
  simp only [row.ApplyValue, if_true, String.reduceEq, if_false]

theorem ApplyValue_material (r : row) (value : String) :
    r.ApplyValue "Materiał" value = ({ r with Material := TrimSpace value }, none) := by
  simp only [row.ApplyValue, if_true, String.reduceEq, if_false]

theorem ApplyValue_other (r : row) (column value : String)
    (h : column ∉ ["Pręt", "Profil", "Materiał", "Prop.(uy)", "Przyp.(uy)", "Prop.(uz)",
      "Przyp.(uz)", "Lay", "Laz", "Wytęż.", "Przypadek"]) :
    r.ApplyValue column value = (r, none) := by
  simp only [List.mem_cons, List.mem_singleton, List.not_mem_nil, or_false, not_or] at h
  obtain ⟨h1, h2, h3, h4, h5, h6, h7, h8, h9, h10, h11⟩ := h
  simp only [row.ApplyValue, h1, h2, h3, h4, h5, h6, h7, h8, h9, h10, h11, if_false]

/-! ### C12: labels that are not recognized -/

/-- C12: for every record, every cell text and every header label that is not
exactly one of the eleven labels `Pręt`, `Profil`, `Materiał`, `Prop.(uy)`,
`Przyp.(uy)`, `Prop.(uz)`, `Przyp.(uz)`, `Lay`, `Laz`, `Wytęż.`, `Przypadek`,
`ApplyValue` returns no error and leaves the record as it is. -/
theorem C12_unrecognized_label_is_ignored (r : row) (column value : String)
    (h : column ∉ ["Pręt", "Profil", "Materiał", "Prop.(uy)", "Przyp.(uy)", "Prop.(uz)",
      "Przyp.(uz)", "Lay", "Laz", "Wytęż.", "Przypadek"]) :
    (r.ApplyValue column value).2 = none ∧ (r.ApplyValue column value).1 = r := by
  rw [ApplyValue_other r column value h]
  exact ⟨rfl, rfl⟩

/-- C12 (witness): the empty label and the lower-case label `profil`, on a
record with a profile. -/
theorem C12_unrecognized_label_is_ignored_witness :
    ((row.ApplyValue { (default : row) with Profile := "IPE 200" } "" "12 x").2 = none ∧
      (row.ApplyValue { (default : row) with Profile := "IPE 200" } "" "12 x").1
        = { (default : row) with Profile := "IPE 200" }) ∧
    ((row.ApplyValue { (default : row) with Profile := "IPE 200" } "profil" "HEB").2 = none ∧
      (row.ApplyValue { (default : row) with Profile := "IPE 200" } "profil" "HEB").1
        = { (default : row) with Profile := "IPE 200" }) :=
  ⟨C12_unrecognized_label_is_ignored _ "" "12 x" (by decide),
    C12_unrecognized_label_is_ignored _ "profil" "HEB" (by decide)⟩

/-! ### C20: the frame of `ApplyValue` -/

theorem ApplyBarValue_frame (r : row) (val : String) :
    (r.ApplyBarValue val).1 = { r with Bar := (r.ApplyBarValue val).1.Bar } := by
  unfold row.ApplyBarValue
  cases getFirstInt val <;> rfl

theorem ApplyCaseValue_frame (r : row) (val : String) :
    (r.ApplyCaseValue val).1 = { r with Case := (r.ApplyCaseValue val).1.Case } := by
  unfold row.ApplyCaseValue
  cases getFirstInt val <;> rfl

theorem ApplyCaseUyValue_frame (r : row) (val : String) :
    (r.ApplyCaseUyValue val).1 = { r with CaseUy := (r.ApplyCaseUyValue val).1.CaseUy } := by
  unfold row.ApplyCaseUyValue
  cases getFirstInt val <;> rfl

theorem ApplyCaseUzValue_frame (r : row) (val : String) :
    (r.ApplyCaseUzValue val).1 = { r with CaseUz := (r.ApplyCaseUzValue val).1.CaseUz } := by
  unfold row.ApplyCaseUzValue
  cases getFirstInt val <;> rfl

/-- C20: for every record and every cell text, under each of the eleven
recognized labels `ApplyValue` changes at most the field the label maps to
(`Pręt` `Bar`, `Profil` `Profile`, `Materiał` `Material`, `Prop.(uy)` `Uy`,
`Przyp.(uy)` `CaseUy`, `Prop.(uz)` `Uz`, `Przyp.(uz)` `CaseUz`, `Lay` `Lay`,
`Laz` `Laz`, `Wytęż.` `Utilization`, `Przypadek` `Case`): the record after the
call is the record before it with that one field replaced.  Under the plain
string labels `Profil` and `Materiał` the field becomes the trimmed cell
text. -/
theorem C20_ApplyValue_changes_one_field (r : row) (value : String) :
    ((r.ApplyValue "Pręt" value).1 = { r with Bar := (r.ApplyValue "Pręt" value).1.Bar } ∧
     (r.ApplyValue "Profil" value).1
        = { r with Profile := (r.ApplyValue "Profil" value).1.Profile } ∧
     (r.ApplyValue "Materiał" value).1
        = { r with Material := (r.ApplyValue "Materiał" value).1.Material } ∧
     (r.ApplyValue "Prop.(uy)" value).1 = { r with Uy := (r.ApplyValue "Prop.(uy)" value).1.Uy } ∧
     (r.ApplyValue "Przyp.(uy)" value).1
        = { r with CaseUy := (r.ApplyValue "Przyp.(uy)" value).1.CaseUy } ∧
     (r.ApplyValue "Prop.(uz)" value).1 = { r with Uz := (r.ApplyValue "Prop.(uz)" value).1.Uz } ∧
     (r.ApplyValue "Przyp.(uz)" value).1
        = { r with CaseUz := (r.ApplyValue "Przyp.(uz)" value).1.CaseUz } ∧
     (r.ApplyValue "Lay" value).1 = { r with Lay := (r.ApplyValue "Lay" value).1.Lay } ∧
     (r.ApplyValue "Laz" value).1 = { r with Laz := (r.ApplyValue "Laz" value).1.Laz } ∧
     (r.ApplyValue "Wytęż." value).1
        = { r with Utilization := (r.ApplyValue "Wytęż." value).1.Utilization } ∧
     (r.ApplyValue "Przypadek" value).1
        = { r with Case := (r.ApplyValue "Przypadek" value).1.Case }) ∧
    (r.ApplyValue "Profil" value).1.Profile = TrimSpace value ∧
    (r.ApplyValue "Materiał" value).1.Material = TrimSpace value := by
  refine ⟨⟨?_, ?_, ?_, ?_, ?_, ?_, ?_, ?_, ?_, ?_, ?_⟩, ?_, ?_⟩
  · rw [ApplyValue_bar]; exact ApplyBarValue_frame r _
  · rw [ApplyValue_profile]
  · rw [ApplyValue_material]
  · rw [ApplyValue_uy]
  · rw [ApplyValue_caseUy]; exact ApplyCaseUyValue_frame r _
  · rw [ApplyValue_uz]
  · rw [ApplyValue_caseUz]; exact ApplyCaseUzValue_frame r _
  · rw [ApplyValue_lay]
  · rw [ApplyValue_laz]
  · rw [ApplyValue_utilization]
  · rw [ApplyValue_case]; exact ApplyCaseValue_frame r _
  · rw [ApplyValue_profile]
  · rw [ApplyValue_material]

/-! ### C19: what a failed coercion writes -/

theorem ApplyBarValue_error (r : row) (val : String) (h : (r.ApplyBarValue val).2 ≠ none) :
    (r.ApplyBarValue val).1 = r := by
  unfold row.ApplyBarValue at h ⊢
  cases hg : getFirstInt val with
  | error e => rfl
  | ok v => rw [hg] at h; exact absurd rfl h

theorem ApplyCaseValue_error (r : row) (val : String) (h : (r.ApplyCaseValue val).2 ≠ none) :
    (r.ApplyCaseValue val).1 = r := by
  unfold row.ApplyCaseValue at h ⊢
  cases hg : getFirstInt val with
  | error e => rfl
  | ok v => rw [hg] at h; exact absurd rfl h

theorem ApplyCaseUyValue_error (r : row) (val : String) (h : (r.ApplyCaseUyValue val).2 ≠ none) :
    (r.ApplyCaseUyValue val).1 = r := by
  unfold row.ApplyCaseUyValue at h ⊢
  cases hg : getFirstInt val with
  | error e => rfl
  | ok v => rw [hg] at h; exact absurd rfl h

theorem ApplyCaseUzValue_error (r : row) (val : String) (h : (r.ApplyCaseUzValue val).2 ≠ none) :
    (r.ApplyCaseUzValue val).1 = r := by
  unfold row.ApplyCaseUzValue at h ⊢
  cases hg : getFirstInt val with
  | error e => rfl
  | ok v => rw [hg] at h; exact absurd rfl h

/-- C19 (counterexample): on the record whose `Uz` is `5`, `ApplyValue` under
the label `Prop.(uz)` with the cell text `abc` returns an error, and the field
`Uz` of the record is `0` afterwards. -/
theorem C19_counterexample_failed_float_overwrites :
    row.ApplyValue { (default : row) with Uz := float64.Fin false 5 0 } "Prop.(uz)" "abc"
      = ({ (default : row) with Uz := float64.Fin false 0 0 }, some error.ErrSyntax) ∧
    float64.eq (float64.Fin false 5 0) (float64.Fin false 0 0) = false := by
  decide

/-- C19 (amended): for every record, every header label and every cell text,
if `ApplyValue` returns an error then the label is one of the four
integer-derived labels or one of the five float labels; under an
integer-derived label the record is unchanged, and under a float label every
field other than the one the label maps to is unchanged. -/
theorem C19_failed_coercion_frame (r : row) (column value : String)
    (herr : (r.ApplyValue column value).2 ≠ none) :
    ((column = "Pręt" ∨ column = "Przypadek" ∨ column = "Przyp.(uy)" ∨ column = "Przyp.(uz)") ∧
      (r.ApplyValue column value).1 = r) ∨
    (column = "Prop.(uy)" ∧
      (r.ApplyValue column value).1 = { r with Uy := (r.ApplyValue column value).1.Uy }) ∨
    (column = "Prop.(uz)" ∧
      (r.ApplyValue column value).1 = { r with Uz := (r.ApplyValue column value).1.Uz }) ∨
    (column = "Lay" ∧
      (r.ApplyValue column value).1 = { r with Lay := (r.ApplyValue column value).1.Lay }) ∨
    (column = "Laz" ∧
      (r.ApplyValue column value).1 = { r with Laz := (r.ApplyValue column value).1.Laz }) ∨
    (column = "Wytęż." ∧
      (r.ApplyValue column value).1
        = { r with Utilization := (r.ApplyValue column value).1.Utilization }) := by
  by_cases hmem : column ∈ ["Pręt", "Profil", "Materiał", "Prop.(uy)", "Przyp.(uy)", "Prop.(uz)",
      "Przyp.(uz)", "Lay", "Laz", "Wytęż.", "Przypadek"]
  · simp only [List.mem_cons, List.mem_singleton, List.not_mem_nil, or_false] at hmem
    rcases hmem with h | h | h | h | h | h | h | h | h | h | h <;> subst h
    · left
      refine ⟨Or.inl rfl, ?_⟩
      rw [ApplyValue_bar] at herr ⊢
      exact ApplyBarValue_error r _ herr
    · rw [ApplyValue_profile] at herr
      exact absurd rfl herr
    · rw [ApplyValue_material] at herr
      exact absurd rfl herr
    · right; left
      exact ⟨rfl, by rw [ApplyValue_uy]⟩
    · left
      refine ⟨Or.inr (Or.inr (Or.inl rfl)), ?_⟩
      rw [ApplyValue_caseUy] at herr ⊢
      exact ApplyCaseUyValue_error r _ herr
    · right; right; left
      exact ⟨rfl, by rw [ApplyValue_uz]⟩
    · left
      refine ⟨Or.inr (Or.inr (Or.inr rfl)), ?_⟩
      rw [ApplyValue_caseUz] at herr ⊢
      exact ApplyCaseUzValue_error r _ herr
    · right; right; right; left
      exact ⟨rfl, by rw [ApplyValue_lay]⟩
    · right; right; right; right; left
      exact ⟨rfl, by rw [ApplyValue_laz]⟩
    · right; right; right; right; right
      exact ⟨rfl, by rw [ApplyValue_utilization]⟩
    · left
      refine ⟨Or.inr (Or.inl rfl), ?_⟩
      rw [ApplyValue_case] at herr ⊢
      exact ApplyCaseValue_error r _ herr
  · rw [ApplyValue_other r column value hmem] at herr
    exact absurd rfl herr

/-- C19 (witness): the cell text `abc` under the label `Pręt`, on a record
with a bar number. -/
theorem C19_failed_coercion_frame_witness :
    (row.ApplyValue { (default : row) with Bar := 4 } "Pręt" "abc").2 = some error.ErrSyntax ∧
    (row.ApplyValue { (default : row) with Bar := 4 } "Pręt" "abc").1
      = { (default : row) with Bar := 4 } := by
  have h := C19_failed_coercion_frame { (default : row) with Bar := 4 } "Pręt" "abc"
    (by decide)
  refine ⟨by decide, ?_⟩
  rcases h with h | h | h | h | h | h
  · exact h.2
  all_goals exact absurd h.1 (by decide)

/-! ### C13: the extractor -/

/-- The loop of `parseHtmlResults` after the header row: the map stays, and the
records of the rows that `NewRowFromSelection` accepts are appended in order. -/
theorem parseHtmlResults_each_data (rest : List (List String)) :
    ∀ (i : Nat) (colMap : colMapT) (rows : List row), i ≠ 0 →
      parseHtmlResults.each i rest (colMap, rows)
        = (colMap, rows ++ rest.filterMap (fun s => (NewRowFromSelection s colMap).toOption)) := by
  induction rest with
  | nil => intro i colMap rows _; simp [parseHtmlResults.each]
  | cons s rest ih =>
    intro i colMap rows hi
    rw [parseHtmlResults.each, if_neg hi]
    cases hs : NewRowFromSelection s colMap with
    | ok r =>
      simp only
      rw [ih (i + 1) colMap (rows ++ [r]) (Nat.succ_ne_zero i)]
      simp [List.filterMap_cons, hs, Except.toOption]
    | error e =>
      simp only
      rw [ih (i + 1) colMap rows (Nat.succ_ne_zero i)]
      simp [List.filterMap_cons, hs, Except.toOption]

/-- C13: for every document the extractor returns without an error; a
document that has only row 0 gives no record; the output has at most as many
records as there are data rows; and the output is, in the order of the data
rows, the record of each data row for which `NewRowFromSelection`, called with
the header map of row 0, returns no error. -/
theorem C13_extractor_keeps_accepted_rows_in_order (doc : List (List String)) :
    parseHtmlResults doc
      = .ok (doc.tail.filterMap
          (fun s => (NewRowFromSelection s (mapColumns (doc.headD []))).toOption)) ∧
    (∀ header : List String, parseHtmlResults [header] = .ok []) ∧
    (doc.tail.filterMap
        (fun s => (NewRowFromSelection s (mapColumns (doc.headD []))).toOption)).length
      ≤ doc.length - 1 := by
  refine ⟨?_, ?_, ?_⟩
  · cases doc with
    | nil => rfl
    | cons header data =>
      unfold parseHtmlResults
      rw [parseHtmlResults.each, if_pos rfl, parseHtmlResults_each_data data 1 _ _ (by decide)]
      simp
  · intro header
    rfl
  · calc _ ≤ doc.tail.length := List.length_filterMap_le _ _
      _ = doc.length - 1 := List.length_tail doc

/-! ### C17: the header map -/

theorem mapColumns_each_below (hs : List String) :
    ∀ (i : Nat) (mp : colMapT) (j : Nat), j < i → mapColumns.each i hs mp j = mp j := by
  induction hs with
  | nil => intro i mp j _; rfl
  | cons td rest ih =>
    intro i mp j hj
    rw [mapColumns.each]
    split_ifs
    · rw [ih (i + 1) _ j (by omega), Function.update_noteq (by omega)]
    · rw [ih (i + 1) _ j (by omega)]

theorem mapColumns_each_at (hs : List String) :
    ∀ (i : Nat) (mp : colMapT) (k : Nat),
      mapColumns.each i hs mp (i + k) =
        match hs[k]? with
        | some td => if (TrimSpace td).length > 0 then some (TrimSpace td) else mp (i + k)
        | none => mp (i + k) := by
  induction hs with
  | nil => intro i mp k; rfl
  | cons td rest ih =>
    intro i mp k
    rw [mapColumns.each]
    cases k with
    | zero =>
      simp only [Nat.add_zero, List.getElem?_cons_zero]
      split_ifs
      · rw [mapColumns_each_below rest (i + 1) _ i (by omega), Function.update_same]
      · rw [mapColumns_each_below rest (i + 1) _ i (by omega)]
    | succ k =>
      have hidx : i + (k + 1) = (i + 1) + k := by omega
      simp only [List.getElem?_cons_succ]
      rw [hidx]
      split_ifs
      · rw [ih (i + 1) _ k, Function.update_noteq (by omega)]
      · rw [ih (i + 1) _ k]

/-- The header map, entry by entry. -/
theorem mapColumns_apply (headers : List String) (i : Nat) :
    mapColumns headers i =
      match headers[i]? with
      | some td => if (TrimSpace td).length > 0 then some (TrimSpace td) else none
      | none => none := by
  have h := mapColumns_each_at headers 0 (fun _ => none) i
  rw [Nat.zero_add] at h
  exact h

theorem ApplyValue_no_label (r : row) (value : String) : r.ApplyValue "" value = (r, none) :=
  ApplyValue_other r "" value (by decide)

/-- A cell at a position without an entry in the header map does not count:
the loop of `NewRowFromSelection` ends in the same state whatever its text. -/
theorem NewRowFromSelection_each_set (colMap : colMapT) (t : String) (s : List String) :
    ∀ (i k : Nat) (st : row × Option error), colMap (i + k) = none →
      NewRowFromSelection.each colMap i (s.set k t) st = NewRowFromSelection.each colMap i s st := by
  induction s with
  | nil => intro i k st _; rfl
  | cons sm rest ih =>
    intro i k st hk
    obtain ⟨r, e⟩ := st
    cases k with
    | zero =>
      have hidx : colMap.index i = "" := by
        unfold colMapT.index
        rw [Nat.add_zero] at hk
        rw [hk]
        rfl
      simp only [List.set_cons_zero, NewRowFromSelection.each, hidx, ApplyValue_no_label]
    | succ k =>
      simp only [List.set_cons_succ, NewRowFromSelection.each]
      exact ih (i + 1) k _ (by rw [← hk]; congr 1; omega)

/-- C17: the header map built by `mapColumns` has an entry at position `i` if
and only if there is a header cell `i` whose trimmed text is not empty, and
the entry is that trimmed text; and when the header map has no entry at
position `i`, replacing the text of cell `i` of a data row by any other text
changes nothing of what `NewRowFromSelection` returns, neither the record nor
the error. -/
theorem C17_header_map_entries_and_skipped_cells (headers : List String) (i : Nat)
    (s : List String) (t : String) :
    ((∃ l, mapColumns headers i = some l) ↔ ∃ td, headers[i]? = some td ∧ TrimSpace td ≠ "") ∧
    (∀ td, headers[i]? = some td → TrimSpace td ≠ "" →
      mapColumns headers i = some (TrimSpace td)) ∧
    (mapColumns headers i = none →
      NewRowFromSelection (s.set i t) (mapColumns headers)
        = NewRowFromSelection s (mapColumns headers)) := by
  have hlen : ∀ x : String, x.length > 0 ↔ x ≠ "" := by
    intro x
    obtain ⟨l⟩ := x
    cases l with
    | nil => exact ⟨fun h => absurd h (by decide), fun h => absurd rfl h⟩
    | cons a l =>
      refine ⟨fun _ h => ?_, fun _ => by simp [String.length]⟩
      have := congrArg String.data h
      exact absurd this (by simp)
  refine ⟨?_, ?_, ?_⟩
  · rw [mapColumns_apply]
    cases headers[i]? with
    | none => simp
    | some td =>
      by_cases h : (TrimSpace td).length > 0
      · simp [h, (hlen _).1 h]
      · have h' : TrimSpace td = "" := by
          by_contra hne
          exact h ((hlen _).2 hne)
        simp [h']
  · intro td htd hne
    rw [mapColumns_apply, htd]
    simp [(hlen _).2 hne]
  · intro hnone
    unfold NewRowFromSelection
    rw [NewRowFromSelection_each_set (mapColumns headers) t s 0 i _ (by rw [Nat.zero_add]; exact hnone)]

/-! ### C15: the projection of a recognized column -/

theorem printResults_loop_ok (fmtFloat : float64 → String) (OutputColumn : String)
    (h : ∃ v, (default : row).ValByCol OutputColumn = .ok v) (results : List row) :
    ∀ rp : List String, ∃ vals : List Value,
      List.Forall₂ (fun r v => r.ValByCol OutputColumn = .ok v) results vals ∧
      printResults.loop fmtFloat OutputColumn results rp
        = some (rp ++ vals.map (SprintfV fmtFloat)) := by
  induction results with
  | nil => intro rp; exact ⟨[], List.Forall₂.nil, by simp [printResults.loop]⟩
  | cons r rest ih =>
    intro rp
    obtain ⟨v, hv⟩ := ValByCol_ok_of_ok h r
    obtain ⟨vals, hvals, hloop⟩ := ih (rp ++ [SprintfV fmtFloat v])
    refine ⟨v :: vals, List.Forall₂.cons hv hvals, ?_⟩
    rw [printResults.loop, hv]
    simp only
    rw [hloop]
    simp

/-- C15: for every list of records and every output column key that
`ValByCol` resolves, `printResults` writes one line: the values `ValByCol`
returns for the records, one for each record and in the order of the records,
each rendered with `%v` (an integer as its decimal digits, a string as it
is), joined with single spaces. -/
theorem C15_projection_line (fmtFloat : float64 → String) (OutputColumn : String)
    (results : List row) (h : ∃ v, (default : row).ValByCol OutputColumn = .ok v) :
    (∃ vals : List Value,
      List.Forall₂ (fun r v => r.ValByCol OutputColumn = .ok v) results vals ∧
      printResults fmtFloat OutputColumn results
        = some (Join (vals.map (SprintfV fmtFloat)) " ")) ∧
    (∀ i : Int, SprintfV fmtFloat (Value.int i) = FormatInt i) ∧
    (∀ s : String, SprintfV fmtFloat (Value.str s) = s) := by
  refine ⟨?_, fun _ => rfl, fun _ => rfl⟩
  obtain ⟨vals, hvals, hloop⟩ := printResults_loop_ok fmtFloat OutputColumn h results []
  refine ⟨vals, hvals, ?_⟩
  unfold printResults
  rw [hloop]
  simp

/-- C15 (witness): three records with the bars 12, 7, 40 and the output
column `bar`; the line is `12 7 40`. -/
theorem C15_projection_line_witness :
    (∃ v, (default : row).ValByCol "bar" = .ok v) ∧
    ((∃ vals : List Value,
      List.Forall₂ (fun r v => r.ValByCol "bar" = .ok v)
        [{ (default : row) with Bar := 12, Profile := "IPE 200" },
         { (default : row) with Bar := 7, Profile := "HEB" },
         { (default : row) with Bar := 40 }] vals ∧
      printResults (fun _ => "") "bar"
        [{ (default : row) with Bar := 12, Profile := "IPE 200" },
         { (default : row) with Bar := 7, Profile := "HEB" },
         { (default : row) with Bar := 40 }]
        = some (Join (vals.map (SprintfV (fun _ => ""))) " ")) ∧
    (∀ i : Int, SprintfV (fun _ => "") (Value.int i) = FormatInt i) ∧
    (∀ s : String, SprintfV (fun _ => "") (Value.str s) = s)) ∧
    printResults (fun _ => "") "bar"
      [{ (default : row) with Bar := 12, Profile := "IPE 200" },
       { (default : row) with Bar := 7, Profile := "HEB" },
       { (default : row) with Bar := 40 }] = some "12 7 40" :=
  ⟨⟨Value.int 0, by decide⟩,
    C15_projection_line (fun _ => "") "bar" _ ⟨Value.int 0, by decide⟩, by decide⟩

/-! ### C16: the projection of a column that does not resolve -/

/-- C16 (counterexample): `ValByCol` does not resolve the key `nosuchcolumn`,
and for the empty list of records `printResults` writes the empty line,
whatever the formatting of floats; the command does so for the document with
the header `Prop.(uz)` and the data row `0.5`, the filter `gt 1` on column
`uz` (which no record passes) and the output column `nosuchcolumn`. -/
theorem C16_counterexample_no_records :
    row.ValByCol default "nosuchcolumn" = .error error.noSuchColumn ∧
    (fun fmtFloat => printResults fmtFloat "nosuchcolumn" []) = (fun _ => some "") ∧
    (fun fmtFloat => slsFilterCmdRun fmtFloat "uz" "nosuchcolumn"
        [["Prop.(uz)"], ["0.5"]] "gt" "1") = (fun _ => .ok (some "")) := by
  refine ⟨by decide, by funext _; rfl, ?_⟩
  funext fmtFloat
  have hp : parseHtmlResults [["Prop.(uz)"], ["0.5"]]
      = .ok [{ (default : row) with Uz := float64.Fin false 4503599627370496 (-53) }] := by
    decide
  have hf : getFilter "gt" "1" "uz" = some (filter.gt (float64.Fin false 4503599627370496 (-52)) "uz") := by
    decide
  have hl : slsFilterCmdRun.loop (filter.gt (float64.Fin false 4503599627370496 (-52)) "uz")
      [{ (default : row) with Uz := float64.Fin false 4503599627370496 (-53) }] [] = [] := by
    decide
  simp only [slsFilterCmdRun, hp, hf, hl]
  rfl

/-- C16 (amended): for every non-empty list of records and every output
column key that `ValByCol` does not resolve, `printResults` writes no line at
all. -/
theorem C16_unresolved_output_column (fmtFloat : float64 → String) (OutputColumn : String)
    (results : List row) (hne : results ≠ [])
    (h : ¬ ∃ v, (default : row).ValByCol OutputColumn = .ok v) :
    printResults fmtFloat OutputColumn results = none := by
  cases results with
  | nil => exact absurd rfl hne
  | cons r rest =>
    have hr : ¬ ∃ v, r.ValByCol OutputColumn = .ok v :=
      fun hv => h (ValByCol_ok_of_ok hv default)
    unfold printResults
    rw [printResults.loop]
    cases hv : r.ValByCol OutputColumn with
    | ok v => exact absurd ⟨v, hv⟩ hr
    | error e => rfl

/-- C16 (witness): one record and the output column `nosuchcolumn`. -/
theorem C16_unresolved_output_column_witness :
    printResults (fun _ => "") "nosuchcolumn" [{ (default : row) with Bar := 12 }] = none :=
  C16_unresolved_output_column (fun _ => "") "nosuchcolumn" [{ (default : row) with Bar := 12 }]
    (by decide) (by
      rintro ⟨v, hv⟩
      have : row.ValByCol default "nosuchcolumn" = .error error.noSuchColumn := by decide
      rw [this] at hv
      exact absurd hv (by simp))

/-! ### C14: a document without data rows -/

/-- C14 (counterexample): for the document that has only the header row
`Pręt | Prop.(uz)` and the filter `lt 1` on column `uz`, the extractor returns
no record and the command writes nothing, whatever the formatting of floats:
it does not write the empty line. -/
theorem C14_counterexample_header_only :
    parseHtmlResults [["Pręt", "Prop.(uz)"]] = .ok [] ∧
    (fun fmtFloat => slsFilterCmdRun fmtFloat "uz" "bar" [["Pręt", "Prop.(uz)"]] "lt" "1")
      = (fun _ => .ok none) ∧
    (Except.ok none : Except error (Option String)) ≠ .ok (some "") := by
  refine ⟨by decide, by funext _; rfl, by decide⟩

/-- C14 (amended): for a document with no data rows (only a header row, or no
row at all) and any filter selection, the extractor returns the empty
sequence of records without an error, and the command returns, without an
error, before it builds the filter: it writes no output line. -/
theorem C14_no_data_rows_no_output (fmtFloat : float64 → String)
    (ColumnName OutputColumn : String) (doc : List (List String))
    (filterName filterValue : String) (hdoc : doc.length ≤ 1) :
    parseHtmlResults doc = .ok [] ∧
    slsFilterCmdRun fmtFloat ColumnName OutputColumn doc filterName filterValue = .ok none := by
  have hp : parseHtmlResults doc = .ok [] := by
    cases doc with
    | nil => rfl
    | cons header data =>
      cases data with
      | nil => rfl
      | cons s rest => simp at hdoc
  refine ⟨hp, ?_⟩
  simp [slsFilterCmdRun, hp]

/-- C14 (witness): the document with the single row `Pręt | Przypadek` and the
filter `uniq` on column `case`. -/
theorem C14_no_data_rows_no_output_witness :
    parseHtmlResults [["Pręt", "Przypadek"]] = .ok [] ∧
    slsFilterCmdRun (fun _ => "") "case" "bar" [["Pręt", "Przypadek"]] "uniq" "" = .ok none :=
  C14_no_data_rows_no_output (fun _ => "") "case" "bar" [["Pręt", "Przypadek"]] "uniq" ""
    (by decide)

/-! ### C18: the case fields -/

theorem reMatchHere_some_eq {s m : List Char} (h : reMatchHere s = some m) :
    ∃ ds c, ds ≠ [] ∧ (∀ x ∈ ds, isDigit x = true) ∧ isReSpace c = true ∧ m = ds ++ [c] := by
  unfold reMatchHere at h
  split at h
  · rename_i d ds c rest htake hdrop
    by_cases hc : isReSpace c = true
    · rw [if_pos hc] at h
      refine ⟨s.takeWhile isDigit, c, ?_, ?_, hc, ?_⟩
      · rw [htake]; simp
      · intro x hx
        exact List.mem_takeWhile_imp hx
      · exact (Option.some.inj h).symm
    · rw [if_neg hc] at h
      exact absurd h (by simp)
  · exact absurd h (by simp)

/-- What `FindString` returns: nothing, or a run of digits and one `\s`
character. -/
theorem reFindFrom_shape (s : List Char) :
    ∀ b, reFindFrom b s = [] ∨
      ∃ ds c, ds ≠ [] ∧ (∀ x ∈ ds, isDigit x = true) ∧ isReSpace c = true ∧
        reFindFrom b s = ds ++ [c] := by
  induction s with
  | nil => intro b; left; cases b <;> rfl
  | cons c0 cs ih =>
    intro b
    cases b with
    | false => rw [reFindFrom]; exact ih _
    | true =>
      cases hm : reMatchHere (c0 :: cs) with
      | some m =>
        obtain ⟨ds, c, hne, hds, hc, rfl⟩ := reMatchHere_some_eq hm
        right
        exact ⟨ds, c, hne, hds, hc, by rw [reFindFrom, hm]⟩
      | none => rw [reFindFrom, hm]; exact ih _

theorem ParseInt_digits_range (ds : List Char) (hne : ds ≠ [])
    (hds : ∀ x ∈ ds, isDigit x = true) (hr : 2 ^ 63 ≤ digitsVal ds) :
    ParseInt ⟨ds⟩ = .error error.ErrRange := by
  cases ds with
  | nil => exact absurd rfl hne
  | cons d ds =>
    have hd : isDigit d = true := hds d (List.mem_cons_self _ _)
    have hplus : (d == '+') = false := by
      rw [beq_eq_false_iff_ne]
      rintro rfl
      exact absurd hd (by decide)
    have hminus : (d == '-') = false := by
      rw [beq_eq_false_iff_ne]
      rintro rfl
      exact absurd hd (by decide)
    have hall : (d :: ds).all isDigit = true := List.all_eq_true.2 hds
    have hr' : digitsVal (d :: ds) ≥ 2 ^ 63 := hr
    simp only [ParseInt, hplus, hminus, Bool.or_self, Bool.false_eq_true, if_false, hall,
      not_true_eq_false, or_false, reduceCtorEq, hr', if_true]

/-- An integer that `getFirstInt` returns is a natural number below `2^63`. -/
theorem getFirstInt_ok_nat {val : String} {i : Int} (h : getFirstInt val = .ok i) :
    ∃ n : Nat, i = (n : Int) ∧ n < 2 ^ 63 := by
  unfold getFirstInt re.FindString at h
  simp only at h
  rcases reFindFrom_shape (TrimSpace val).data true with h0 | ⟨ds, c, hne, hds, hc, hm⟩
  · rw [h0] at h
    have hnil : ParseInt (TrimSpace ⟨[]⟩) = .error error.ErrSyntax := by decide
    rw [hnil] at h
    exact absurd h (by simp)
  · rw [hm] at h
    have ht : TrimSpace ⟨ds ++ [c]⟩ = ⟨ds⟩ := by
      unfold TrimSpace
      simp only
      rw [trim_digits_space ds c hne hds (isReSpace_isSpace hc)]
    rw [ht] at h
    by_cases hr : digitsVal ds < 2 ^ 63
    · rw [ParseInt_digits ds hne hds hr] at h
      exact ⟨digitsVal ds, (Except.ok.inj h).symm, hr⟩
    · rw [ParseInt_digits_range ds hne hds (by omega)] at h
      exact absurd h (by simp)

/-- `getFirstInt` trims its argument itself. -/
theorem getFirstInt_TrimSpace (val : String) : getFirstInt (TrimSpace val) = getFirstInt val := by
  unfold getFirstInt
  simp only [TrimSpace_idem]

/-- `ParseInt` reads back what `FormatInt` writes. -/
theorem ParseInt_FormatInt (n : Nat) (hn : n < 2 ^ 63) :
    ParseInt (FormatInt (n : Int)) = .ok (n : Int) := by
  obtain ⟨d1, d2, d3⟩ := natDigits_spec (n + 1) n (Nat.lt_succ_self n)
  have hfmt : FormatInt (n : Int) = ⟨natDigits (n + 1) n []⟩ := rfl
  rw [hfmt, ParseInt_digits _ d2 d1 (by rw [d3]; exact hn), d3]

/-- C18: for every record and every cell text, whenever `ApplyValue` succeeds
under one of the labels `Przypadek`, `Przyp.(uy)`, `Przyp.(uz)`, `getFirstInt`
returns for that text a natural number `n` below `2^63`, and the field of the
label (`Case`, `CaseUy`, `CaseUz`) is afterwards the decimal rendering of `n`:
a non-empty text of ASCII digits that writes `n`, does not begin with `0`
unless `n` is `0`, and that `ParseInt` reads back as `n`. -/
theorem C18_case_fields_hold_canonical_digits (r : row) (column value : String)
    (hcol : column = "Przypadek" ∨ column = "Przyp.(uy)" ∨ column = "Przyp.(uz)")
    (hok : (r.ApplyValue column value).2 = none) :
    ∃ n : Nat, getFirstInt value = .ok (n : Int) ∧ n < 2 ^ 63 ∧
      (column = "Przypadek" → (r.ApplyValue column value).1.Case = FormatInt n) ∧
      (column = "Przyp.(uy)" → (r.ApplyValue column value).1.CaseUy = FormatInt n) ∧
      (column = "Przyp.(uz)" → (r.ApplyValue column value).1.CaseUz = FormatInt n) ∧
      (FormatInt n).data ≠ [] ∧ (∀ x ∈ (FormatInt n).data, isDigit x = true) ∧
      digitsVal (FormatInt n).data = n ∧
      (0 < n → (FormatInt n).data.head? ≠ some '0') ∧
      ParseInt (FormatInt n) = .ok (n : Int) := by
  have hget : ∃ i, getFirstInt (TrimSpace value) = .ok i := by
    rcases hcol with h | h | h <;> subst h
    · rw [ApplyValue_case] at hok
      unfold row.ApplyCaseValue at hok
      cases hg : getFirstInt (TrimSpace value) with
      | ok i => exact ⟨i, rfl⟩
      | error e => rw [hg] at hok; exact absurd hok (by simp)
    · rw [ApplyValue_caseUy] at hok
      unfold row.ApplyCaseUyValue at hok
      cases hg : getFirstInt (TrimSpace value) with
      | ok i => exact ⟨i, rfl⟩
      | error e => rw [hg] at hok; exact absurd hok (by simp)
    · rw [ApplyValue_caseUz] at hok
      unfold row.ApplyCaseUzValue at hok
      cases hg : getFirstInt (TrimSpace value) with
      | ok i => exact ⟨i, rfl⟩
      | error e => rw [hg] at hok; exact absurd hok (by simp)
  obtain ⟨i, hi⟩ := hget
  obtain ⟨n, rfl, hn⟩ := getFirstInt_ok_nat hi
  obtain ⟨d1, d2, d3⟩ := natDigits_spec (n + 1) n (Nat.lt_succ_self n)
  have hfmt : FormatInt (n : Int) = ⟨natDigits (n + 1) n []⟩ := rfl
  refine ⟨n, by rw [← getFirstInt_TrimSpace]; exact hi, hn, ?_, ?_, ?_, ?_, ?_, ?_, ?_,
    ParseInt_FormatInt n hn⟩
  · intro h
    subst h
    rw [ApplyValue_case]
    simp [row.ApplyCaseValue, hi]
  · intro h
    subst h
    rw [ApplyValue_caseUy]
    simp [row.ApplyCaseUyValue, hi]
  · intro h
    subst h
    rw [ApplyValue_caseUz]
    simp [row.ApplyCaseUzValue, hi]
  · rw [hfmt]; exact d2
  · rw [hfmt]; exact d1
  · rw [hfmt]; exact d3
  · rw [hfmt]; exact natDigits_head (n + 1) n (Nat.lt_succ_self n)

/-- C18 (witness): under the label `Przypadek` the cell texts `007 x` and
`7 y` both give the field `7`. -/
theorem C18_case_fields_hold_canonical_digits_witness :
    (row.ApplyValue default "Przypadek" "007 x").1.Case = "7" ∧
    (row.ApplyValue default "Przypadek" "7 y").1.Case = "7" ∧
    (row.ApplyValue default "Przyp.(uy)" "007 x").1.CaseUy
      = (row.ApplyValue default "Przyp.(uy)" "7 y").1.CaseUy := by
  obtain ⟨n, hn, _, hcase, _⟩ :=
    C18_case_fields_hold_canonical_digits default "Przypadek" "007 x" (Or.inl rfl) (by decide)
  have h7 : getFirstInt "007 x" = .ok (7 : Int) := by decide
  rw [h7] at hn
  have hn7 : n = 7 := by
    have := Except.ok.inj hn
    omega
  subst hn7
  refine ⟨?_, by decide, by decide⟩
  rw [hcase rfl]
  decide

end cmd
